import Mathlib

/-!
Shallow embedding of the warehouse multi-agent simulation (source file 2.py).

The source builds a Mesa model: a toroidal MultiGrid, a RandomActivation
scheduler, and three agent kinds (Box, Pallet, RobotAgent).  Robots sense
their own cell, then drop a carried box on a co-located pallet, pick up a
co-located box, or move to a random orthogonal neighbor.  The driver steps
the model until all boxes are stacked or a step budget runs out, recording
the cumulative robot movement total after every tick.

Randomness: Mesa gives every model instance one seedable generator
(random.Random) that feeds agent placement, the per-tick activation
shuffle, and the neighbor choice.  We model that generator as an explicit
natural-number state threaded through the simulation, with a concrete
linear congruential step so that every definition is executable.
-/

namespace Warehouse

/-- State of one scheduled agent: a passive box (class Box), a pallet with
its stack counter (class Pallet), or a robot with its carrying flag and
movement counter (class RobotAgent). -/
inductive AgentState : Type
  | box : AgentState
  | pallet (stack_count : Nat) : AgentState
  | robot (carrying_box : Bool) (movements : Nat) : AgentState
  deriving DecidableEq

/-- One scheduled agent: its unique id, its kind-specific state, and its
grid position (none once removed from the grid, as for a picked-up box). -/
structure WAgent where
  unique_id : Nat
  state : AgentState
  pos : Option (Nat × Nat)
  deriving DecidableEq

/-- The whole simulation state (class WarehouseModel): grid dimensions, the
scheduler agent list in insertion order, the per-instance random generator
state, and the recorded list of per-tick cumulative movement totals. -/
structure WarehouseModel where
  width : Nat
  height : Nat
  agents : List WAgent
  rng : Nat
  movements : List Nat
  deriving DecidableEq

/-- One step of the per-model random generator (a concrete linear
congruential generator standing in for random.Random). -/
def rngNext (s : Nat) : Nat :=
  (6364136223846793005 * s + 1442695040888963407) % 18446744073709551616

/-- Models random.randrange(n): a value in [0, n), raising on an empty
range exactly as the Python call does. -/
def randrange (n : Nat) (s : Nat) : Except String (Nat × Nat) :=
  if n = 0 then .error "empty range for randrange"
  else .ok (rngNext s % n, rngNext s)

/-- Models random.choice: a uniformly chosen element of the list, raising
on an empty sequence exactly as the Python call does. -/
def choice {α : Type} (l : List α) (s : Nat) : Except String (α × Nat) :=
  match l with
  | [] => .error "cannot choose from an empty sequence"
  | a :: t => .ok ((a :: t).getD (rngNext s % (t.length + 1)) a, rngNext s)

/-- Recursive worker for the uniform shuffle: repeatedly extract a
uniformly chosen element from the remaining list.  The first argument is
fuel, instantiated with the length of the list. -/
def shuffleGo {α : Type} : Nat → List α → Nat → List α × Nat
  | 0, _, s => ([], s)
  | _ + 1, [], s => ([], s)
  | n + 1, a :: t, s =>
    let s' := rngNext s
    let i := s' % (t.length + 1)
    let rest := shuffleGo n ((a :: t).eraseIdx i) s'
    ((a :: t).getD i a :: rest.1, rest.2)

/-- Models random.shuffle: a uniformly random permutation of the list,
drawn from the per-model generator. -/
def shuffle {α : Type} (l : List α) (s : Nat) : List α × Nat :=
  shuffleGo l.length l s

/-- isinstance(agent, Box). -/
def WAgent.isBox (a : WAgent) : Bool :=
  match a.state with
  | .box => true
  | _ => false

/-- isinstance(agent, Pallet). -/
def WAgent.isPallet (a : WAgent) : Bool :=
  match a.state with
  | .pallet _ => true
  | _ => false

/-- isinstance(agent, RobotAgent). -/
def WAgent.isRobot (a : WAgent) : Bool :=
  match a.state with
  | .robot _ _ => true
  | _ => false

/-- The stack counter of a pallet (0 on other kinds). -/
def WAgent.palletStack (a : WAgent) : Nat :=
  match a.state with
  | .pallet n => n
  | _ => 0

/-- The movement counter of a robot (0 on other kinds). -/
def WAgent.robotMovements (a : WAgent) : Nat :=
  match a.state with
  | .robot _ n => n
  | _ => 0

/-- 1 when the agent is a robot currently carrying a box, else 0. -/
def WAgent.carryFlag (a : WAgent) : Nat :=
  match a.state with
  | .robot true _ => 1
  | _ => 0

/-- 1 when the agent is a box still placed on the grid, else 0. -/
def WAgent.gridBoxFlag (a : WAgent) : Nat :=
  match a.state, a.pos with
  | .box, some _ => 1
  | _, _ => 0

/-- Set the grid position of an agent (grid.place_agent / grid.move_agent
store the position; grid.remove_agent clears it to none). -/
def WAgent.setPos (a : WAgent) (p : Option (Nat × Nat)) : WAgent :=
  { a with pos := p }

/-- Set the carrying flag of a robot; identity on other kinds. -/
def WAgent.setCarrying (a : WAgent) (b : Bool) : WAgent :=
  { a with state := match a.state with
                    | .robot _ n => .robot b n
                    | s => s }

/-- Increment the movement counter of a robot; identity on other kinds. -/
def WAgent.incMovements (a : WAgent) : WAgent :=
  { a with state := match a.state with
                    | .robot c n => .robot c (n + 1)
                    | s => s }

/-- Increment the stack counter of a pallet; identity on other kinds. -/
def WAgent.incStack (a : WAgent) : WAgent :=
  { a with state := match a.state with
                    | .pallet n => .pallet (n + 1)
                    | s => s }

/-- grid.get_cell_list_contents([p]): every agent currently placed at p. -/
def cellContents (m : WarehouseModel) (p : Nat × Nat) : List WAgent :=
  m.agents.filter (fun a => a.pos == some p)

/-- RobotAgent.sense_environment: whether the robot's own cell holds a box
and whether it holds a pallet. -/
def senseEnvironment (m : WarehouseModel) (p : Nat × Nat) : Bool × Bool :=
  ((cellContents m p).any (fun a => a.isBox),
   (cellContents m p).any (fun a => a.isPallet))

/-- Keep the first occurrence of every element, dropping later duplicates;
mirrors collecting coordinates in an insertion-ordered Python dict. -/
def dedupFirst {α : Type} [DecidableEq α] : List α → List α
  | [] => []
  | a :: t => a :: (dedupFirst t).filter (fun b => b ≠ a)

/-- grid.get_neighborhood(pos, moore=False, include_center=False) on the
toroidal MultiGrid built at line 81 of the source.  The grid is library
code (Mesa), modelled from the spec contract: the candidate von Neumann
offsets are wrapped around the torus, duplicates are dropped, and the
center cell is removed from the result. -/
def getNeighborhood (w h : Nat) (pos : Nat × Nat) : List (Nat × Nat) :=
  let x := pos.1
  let y := pos.2
  let cand := [((x + w - 1) % w, y), (x, (y + h - 1) % h), (x, y),
               (x, (y + 1) % h), ((x + 1) % w, y)]
  (dedupFirst cand).filter (fun q => q ≠ pos)

/-- Apply an update to every scheduled agent bearing the given unique id
(Mesa mutates the one object registered under that id). -/
def updateAgent (m : WarehouseModel) (id : Nat) (f : WAgent → WAgent) : WarehouseModel :=
  { m with agents := m.agents.map (fun a => if a.unique_id == id then f a else a) }

/-- Look up the scheduled agent registered under a unique id. -/
def findAgent (m : WarehouseModel) (id : Nat) : Option WAgent :=
  m.agents.find? (fun a => a.unique_id == id)

/-- RobotAgent.drop_box: if the robot carries a box and a pallet shares
its cell, increment the first such pallet's stack counter and clear the
carrying flag; otherwise do nothing. -/
def drop_box (m : WarehouseModel) (id : Nat) (p : Nat × Nat) (carrying : Bool) : WarehouseModel :=
  if carrying then
    match (cellContents m p).filter (fun a => a.isPallet) with
    | [] => m
    | pallet0 :: _ =>
      updateAgent (updateAgent m pallet0.unique_id WAgent.incStack) id
        (fun a => a.setCarrying false)
  else m

/-- RobotAgent.pick_box: if the robot is idle and a box shares its cell,
set the carrying flag and delete the first such box from the grid;
otherwise do nothing. -/
def pick_box (m : WarehouseModel) (id : Nat) (p : Nat × Nat) (carrying : Bool) : WarehouseModel :=
  if carrying then m
  else
    match (cellContents m p).filter (fun a => a.isBox) with
    | [] => m
    | box0 :: _ =>
      updateAgent (updateAgent m id (fun a => a.setCarrying true)) box0.unique_id
        (fun a => a.setPos none)

/-- RobotAgent.move: pick a uniformly random cell of the von Neumann
neighborhood, move there, and increment the robot's movement counter. -/
def moveRobot (m : WarehouseModel) (id : Nat) (p : Nat × Nat) : Except String WarehouseModel :=
  match choice (getNeighborhood m.width m.height p) m.rng with
  | .error e => .error e
  | .ok (new_position, s') =>
    .ok { updateAgent m id (fun a => (a.setPos (some new_position)).incMovements)
            with rng := s' }

/-- One scheduler activation of the agent registered under the id.  A
robot runs RobotAgent.step (sense, then drop if carrying, else pick if a
box is present, else move); boxes and pallets inherit the no-op step. -/
def activate (m : WarehouseModel) (id : Nat) : Except String WarehouseModel :=
  match findAgent m id with
  | none => .ok m
  | some a =>
    match a.state, a.pos with
    | .robot carrying _, some p =>
      if carrying then .ok (drop_box m id p carrying)
      else if (senseEnvironment m p).1 then .ok (pick_box m id p carrying)
      else moveRobot m id p
    | _, _ => .ok m

/-- Activate the listed agent ids in order, stopping at the first raised
error (none occurs in a healthy run). -/
def runOrder : List Nat → WarehouseModel → Except String WarehouseModel
  | [], m => .ok m
  | id :: rest, m =>
    match activate m id with
    | .ok m' => runOrder rest m'
    | .error e => .error e

/-- mesa.time.RandomActivation.step: draw a fresh uniformly random
permutation of the registered agent ids, then activate each exactly once
in that order. -/
def scheduleStep (m : WarehouseModel) : Except String WarehouseModel :=
  let p := shuffle (m.agents.map (fun a => a.unique_id)) m.rng
  runOrder p.1 { m with rng := p.2 }

/-- Cumulative movement total over all robots, as the source computes it
(sum over the scheduler agents that are RobotAgent instances). -/
def totalMovements (m : WarehouseModel) : Nat :=
  ((m.agents.filter (fun a => a.isRobot)).map (fun a => a.robotMovements)).sum

/-- WarehouseModel.step: run one scheduler tick, then append the cumulative
robot movement total to the recorded movement history. -/
def WarehouseModel.step (m : WarehouseModel) : Except String WarehouseModel :=
  match scheduleStep m with
  | .ok m' => .ok { m' with movements := m'.movements ++ [totalMovements m'] }
  | .error e => .error e

/-- WarehouseModel.all_boxes_stacked, exactly as written in the source:
the pallet stack counters are summed and compared against the literal 20
(not against the configured number of boxes). -/
def all_boxes_stacked (m : WarehouseModel) : Bool :=
  ((m.agents.filter (fun a => a.isPallet)).map (fun a => a.palletStack)).sum == 20

/-- Create cnt agents with the given state and consecutive ids starting at
startId, placing each at a random cell exactly as the creation loops of
WarehouseModel.init do (one randrange per coordinate). -/
def createAgents (st : AgentState) (startId cnt w h : Nat) (s : Nat) :
    Except String (List WAgent × Nat) :=
  match cnt with
  | 0 => .ok ([], s)
  | n + 1 =>
    match randrange w s with
    | .error e => .error e
    | .ok (x, s₁) =>
      match randrange h s₁ with
      | .error e => .error e
      | .ok (y, s₂) =>
        match createAgents st (startId + 1) n w h s₂ with
        | .error e => .error e
        | .ok (rest, s₃) => .ok (⟨startId, st, some (x, y)⟩ :: rest, s₃)

/-- WarehouseModel constructor body: build the toroidal grid, then create
and randomly place num_boxes boxes (ids 0..), num_pallets pallets and
num_robots robots, in that order, drawing every coordinate from the
per-model generator.  The final argument is the state that generator has
when the body starts running; the source signature (line 80) exposes no
parameter for it, so in a real run it is seeded from ambient entropy —
see constructModel for the call interface. -/
def WarehouseModel.init (width height num_boxes num_robots num_pallets seed : Nat) :
    Except String WarehouseModel :=
  match createAgents .box 0 num_boxes width height seed with
  | .error e => .error e
  | .ok (boxes, s₁) =>
    match createAgents (.pallet 0) num_boxes num_pallets width height s₁ with
    | .error e => .error e
    | .ok (pallets, s₂) =>
      match createAgents (.robot false 0) (num_boxes + num_pallets) num_robots width height s₂ with
      | .error e => .error e
      | .ok (robots, s₃) =>
        .ok { width := width, height := height,
              agents := boxes ++ pallets ++ robots,
              rng := s₃, movements := [] }

/-- Iterate WarehouseModel.step a fixed number of times. -/
def stepN : Nat → WarehouseModel → Except String WarehouseModel
  | 0, m => .ok m
  | n + 1, m =>
    match m.step with
    | .ok m' => stepN n m'
    | .error e => .error e

/-- The batch driver loop of the source: step while the stacked-boxes
predicate is false and the step budget is not exhausted, counting ticks. -/
def runLoop : Nat → Nat → WarehouseModel → Except String (Nat × WarehouseModel)
  | 0, steps, m => .ok (steps, m)
  | fuel + 1, steps, m =>
    if all_boxes_stacked m then .ok (steps, m)
    else
      match m.step with
      | .ok m' => runLoop fuel (steps + 1) m'
      | .error e => .error e

/-- Construct a model from a configuration and a seed and run the driver
loop under the given step budget, returning the elapsed tick count and the
final model. -/
def runSimulation (width height num_boxes num_robots num_pallets seed max_steps : Nat) :
    Except String (Nat × WarehouseModel) :=
  match WarehouseModel.init width height num_boxes num_robots num_pallets seed with
  | .ok m => runLoop max_steps 0 m
  | .error e => .error e

/-- The movement total the source reports at the end of a run
(model.movements[-1], read as 0 on an empty history). -/
def finalMovementTotal (m : WarehouseModel) : Nat :=
  m.movements.getLastD 0

/-- No two scheduled agents share a unique id.  WarehouseModel.init
assigns consecutive distinct ids, so this holds in every real run. -/
def NodupIds (m : WarehouseModel) : Prop :=
  (m.agents.map (fun a => a.unique_id)).Nodup

/-- Sum of a per-agent quantity over a list of agents. -/
def aggr (g : WAgent → Nat) (l : List WAgent) : Nat :=
  (l.map g).sum

/-- Sum of stack_count over every pallet of the model. -/
def palletSum (m : WarehouseModel) : Nat :=
  aggr WAgent.palletStack m.agents

/-- Number of robots currently carrying a box. -/
def carryCount (m : WarehouseModel) : Nat :=
  aggr WAgent.carryFlag m.agents

/-- Number of boxes still placed on the grid. -/
def gridBoxCount (m : WarehouseModel) : Nat :=
  aggr WAgent.gridBoxFlag m.agents

/-- The movement counter of the robot registered under the id (0 when no
such agent exists or it is not a robot). -/
def robotMovementsOf (m : WarehouseModel) (id : Nat) : Nat :=
  match findAgent m id with
  | some a => a.robotMovements
  | none => 0

/-- The carrying flag of the robot registered under the id. -/
def carryingOf (m : WarehouseModel) (id : Nat) : Bool :=
  match findAgent m id with
  | some a =>
    match a.state with
    | .robot c _ => c
    | _ => false
  | none => false

/-- The grid position of the agent registered under the id. -/
def posOf (m : WarehouseModel) (id : Nat) : Option (Nat × Nat) :=
  match findAgent m id with
  | some a => a.pos
  | none => none

/-- Whether an activation of the agent registered under the id would take
the move branch of RobotAgent.step: the agent is a placed robot that is
not carrying a box and senses no box in its own cell. -/
def moveBranch (m : WarehouseModel) (id : Nat) : Bool :=
  match findAgent m id with
  | some a =>
    match a.state, a.pos with
    | .robot carrying _, some p => !carrying && !(senseEnvironment m p).1
    | _, _ => false
  | none => false

/-- Modelled from the spec: the neighbor set the grid contract promises,
namely the four orthogonally adjacent cells wrapped around the torus with
the center cell excluded. -/
def orthogonalNeighborsSpec (w h : Nat) (pos : Nat × Nat) : Finset (Nat × Nat) :=
  ({((pos.1 + w - 1) % w, pos.2), ((pos.1 + 1) % w, pos.2),
    (pos.1, (pos.2 + h - 1) % h), (pos.1, (pos.2 + 1) % h)} : Finset (Nat × Nat)) \ {pos}

/-- True exactly on successful results. -/
def exceptOk {α : Type} : Except String α → Bool
  | .ok _ => true
  | .error _ => false

/-- The conservation quantity behind the stacking bound: every one of the
nb initial boxes is on the grid, in a robot's hands, or already counted by
a pallet's stack counter. -/
def TickInv (nb : Nat) (m : WarehouseModel) : Prop :=
  palletSum m + carryCount m + gridBoxCount m = nb

/-- Unwrap a successful simulation result, with an explicit fallback. -/
def okOr (r : Except String WarehouseModel) (d : WarehouseModel) : WarehouseModel :=
  match r with
  | .ok m => m
  | .error _ => d

/-- The model produced by one activation of the given agent (fallback to
the input on error), used to state concrete evaluations. -/
def activateResult (m : WarehouseModel) (id : Nat) : WarehouseModel :=
  okOr (activate m id) m

/-- The model produced by one scheduler tick (fallback to the input). -/
def schedResult (m : WarehouseModel) : WarehouseModel :=
  okOr (scheduleStep m) m

/-- The model produced by one full WarehouseModel.step (fallback to the
input). -/
def stepResult (m : WarehouseModel) : WarehouseModel :=
  okOr m.step m

/-- The model produced by n WarehouseModel.step calls (fallback to the
input). -/
def stepNResult (n : Nat) (m : WarehouseModel) : WarehouseModel :=
  okOr (stepN n m) m

/-- The all-zero fallback model. -/
def emptyModel : WarehouseModel :=
  { width := 0, height := 0, agents := [], rng := 0, movements := [] }

/-- A single robot that carries a box and stands on a cell with no
pallet: the configuration on which the activation rule stalls. -/
def ladenRobotModel : WarehouseModel :=
  { width := 5, height := 5,
    agents := [{ unique_id := 0, state := .robot true 0, pos := some (2, 2) }],
    rng := 0, movements := [] }

/-- An idle robot standing on a cell that also holds one box. -/
def pickDemoModel : WarehouseModel :=
  { width := 3, height := 3,
    agents := [{ unique_id := 0, state := .box, pos := some (0, 0) },
               { unique_id := 1, state := .robot false 3, pos := some (0, 0) }],
    rng := 0, movements := [] }

/-- A lone idle robot on an empty 3 by 3 grid. -/
def soloRobotModel : WarehouseModel :=
  { width := 3, height := 3,
    agents := [{ unique_id := 0, state := .robot false 0, pos := some (1, 1) }],
    rng := 0, movements := [] }

/-- The model built by the constructor on a 2 by 2 grid with one box, one
robot and one pallet, seed 0. -/
def smallInitModel : WarehouseModel :=
  okOr (WarehouseModel.init 2 2 1 1 1 0) emptyModel

/-- The parameter names declared by WarehouseModel.init in the source
(line 80): exactly width, height, num_boxes, num_robots and num_pallets —
no seed parameter and no keyword catch-all. -/
def initParamNames : List String :=
  ["width", "height", "num_boxes", "num_robots", "num_pallets"]

/-- Constructing a WarehouseModel through a Python-style call with extra
keyword arguments.  Mesa's base Model reads a seed keyword in its
allocation hook, but the call protocol then invokes the constructor body
with the same keywords, and a keyword absent from the declared parameter
list raises TypeError before any model exists.  With no extra keyword the
constructor body runs on the ambient state of the per-instance generator
(the entropy argument). -/
def constructModel (width height num_boxes num_robots num_pallets : Nat)
    (extra_kwargs : List String) (entropy : Nat) : Except String WarehouseModel :=
  match extra_kwargs.find? (fun k => !(initParamNames.contains k)) with
  | some k => .error ("TypeError: WarehouseModel got an unexpected keyword argument " ++ k)
  | none => WarehouseModel.init width height num_boxes num_robots num_pallets entropy

/-! ### Agent-level helper lemmas -/

theorem aggr_nil (g : WAgent → Nat) : aggr g [] = 0 := rfl

theorem aggr_cons (g : WAgent → Nat) (a : WAgent) (l : List WAgent) :
    aggr g (a :: l) = g a + aggr g l := by
  simp [aggr]

theorem aggr_append (g : WAgent → Nat) (l₁ l₂ : List WAgent) :
    aggr g (l₁ ++ l₂) = aggr g l₁ + aggr g l₂ := by
  simp [aggr]

theorem aggr_map_update_eq (g : WAgent → Nat) (f : WAgent → WAgent) (i : Nat)
    (l : List WAgent) (hf : ∀ b, g (f b) = g b) :
    aggr g (l.map (fun a => if a.unique_id == i then f a else a)) = aggr g l := by
  induction l with
  | nil => rfl
  | cons a t ih =>
    rw [List.map_cons, aggr_cons, aggr_cons, ih]
    by_cases h : (a.unique_id == i) = true
    · simp [h, hf]
    · simp [h]

theorem aggr_map_update_le (g : WAgent → Nat) (f : WAgent → WAgent) (i : Nat)
    (l : List WAgent) (hf : ∀ b, g b ≤ g (f b)) :
    aggr g l ≤ aggr g (l.map (fun a => if a.unique_id == i then f a else a)) := by
  induction l with
  | nil => exact Nat.le_refl _
  | cons a t ih =>
    rw [List.map_cons, aggr_cons, aggr_cons]
    by_cases h : (a.unique_id == i) = true
    · simp only [h, if_true]
      exact Nat.add_le_add (hf a) ih
    · simp only [h, if_false]
      exact Nat.add_le_add (Nat.le_refl _) ih

theorem find?_map_update (l : List WAgent) (i id : Nat) (f : WAgent → WAgent)
    (hf : ∀ b, (f b).unique_id = b.unique_id) :
    (l.map (fun a => if a.unique_id == i then f a else a)).find?
        (fun a => a.unique_id == id)
      = (l.find? (fun a => a.unique_id == id)).map
          (fun a => if a.unique_id == i then f a else a) := by
  induction l with
  | nil => rfl
  | cons a t ih =>
    have hup : (if a.unique_id == i then f a else a).unique_id = a.unique_id := by
      split <;> simp [hf]
    by_cases h : (a.unique_id == id) = true
    · rw [List.map_cons,
        List.find?_cons_of_pos (p := fun (b : WAgent) => b.unique_id == id) _
          (by simp only [hup]; exact h),
        List.find?_cons_of_pos (p := fun (b : WAgent) => b.unique_id == id) _ h]
      rfl
    · rw [List.map_cons,
        List.find?_cons_of_neg (p := fun (b : WAgent) => b.unique_id == id) _
          (by simp only [hup]; exact h),
        List.find?_cons_of_neg (p := fun (b : WAgent) => b.unique_id == id) _ h]
      exact ih

theorem findAgent_updateAgent (m : WarehouseModel) (i id : Nat) (f : WAgent → WAgent)
    (hf : ∀ b, (f b).unique_id = b.unique_id) :
    findAgent (updateAgent m i f) id
      = (findAgent m id).map (fun a => if a.unique_id == i then f a else a) :=
  find?_map_update m.agents i id f hf

theorem ids_map_update (l : List WAgent) (i : Nat) (f : WAgent → WAgent)
    (hf : ∀ b, (f b).unique_id = b.unique_id) :
    (l.map (fun a => if a.unique_id == i then f a else a)).map (fun a => a.unique_id)
      = l.map (fun a => a.unique_id) := by
  rw [List.map_map]
  apply List.map_congr_left
  intro a _
  simp only [Function.comp_apply]
  split <;> simp [hf]

theorem ids_updateAgent (m : WarehouseModel) (i : Nat) (f : WAgent → WAgent)
    (hf : ∀ b, (f b).unique_id = b.unique_id) :
    (updateAgent m i f).agents.map (fun a => a.unique_id)
      = m.agents.map (fun a => a.unique_id) :=
  ids_map_update m.agents i f hf

theorem map_update_of_forall_ne (l : List WAgent) (i : Nat) (f : WAgent → WAgent)
    (h : ∀ b ∈ l, b.unique_id ≠ i) :
    l.map (fun a => if a.unique_id == i then f a else a) = l := by
  induction l with
  | nil => rfl
  | cons a t ih =>
    rw [List.map_cons]
    have ha : (a.unique_id == i) = false := by
      simp [h a (List.mem_cons_self a t)]
    rw [ha]
    simp only [Bool.false_eq_true, if_false]
    rw [ih (fun b hb => h b (List.mem_cons_of_mem a hb))]

theorem findAgent_mem (m : WarehouseModel) (id : Nat) (a : WAgent)
    (h : findAgent m id = some a) : a ∈ m.agents :=
  List.mem_of_find?_eq_some h

theorem findAgent_uid (m : WarehouseModel) (id : Nat) (a : WAgent)
    (h : findAgent m id = some a) : a.unique_id = id := by
  have := List.find?_some h
  simpa using this

theorem updateAgent_split (m : WarehouseModel) (a : WAgent) (f : WAgent → WAgent)
    (ha : a ∈ m.agents) (hn : NodupIds m) :
    ∃ s₁ s₂, m.agents = s₁ ++ a :: s₂ ∧
      (updateAgent m a.unique_id f).agents = s₁ ++ f a :: s₂ ∧
      (∀ b ∈ s₁, b.unique_id ≠ a.unique_id) ∧
      (∀ b ∈ s₂, b.unique_id ≠ a.unique_id) := by
  obtain ⟨s₁, s₂, hsplit⟩ := List.append_of_mem ha
  have hn' : ((s₁ ++ a :: s₂).map (fun b => b.unique_id)).Nodup := by
    rw [← hsplit]; exact hn
  rw [List.map_append, List.map_cons] at hn'
  rw [List.nodup_middle, List.nodup_cons, List.mem_append] at hn'
  obtain ⟨hnotmem, _⟩ := hn'
  have h₁ : ∀ b ∈ s₁, b.unique_id ≠ a.unique_id := by
    intro b hb heq
    exact hnotmem (Or.inl (by rw [← heq]; exact List.mem_map_of_mem _ hb))
  have h₂ : ∀ b ∈ s₂, b.unique_id ≠ a.unique_id := by
    intro b hb heq
    exact hnotmem (Or.inr (by rw [← heq]; exact List.mem_map_of_mem _ hb))
  refine ⟨s₁, s₂, hsplit, ?_, h₁, h₂⟩
  show (m.agents.map fun b => if b.unique_id == a.unique_id then f b else b)
      = s₁ ++ f a :: s₂
  rw [hsplit, List.map_append, List.map_cons]
  rw [map_update_of_forall_ne s₁ _ f h₁, map_update_of_forall_ne s₂ _ f h₂]
  simp

theorem getLast?_mem_self : ∀ (l : List Nat) (a : Nat), l.getLast? = some a → a ∈ l := by
  intro l
  induction l with
  | nil => intro a h; cases h
  | cons x t ih =>
    intro a h
    cases t with
    | nil =>
      simp [List.getLast?] at h
      simp [h]
    | cons y s =>
      rw [List.getLast?_cons_cons] at h
      exact List.mem_cons_of_mem x (ih a h)

theorem palletStack_setCarrying (b : WAgent) (c : Bool) :
    (b.setCarrying c).palletStack = b.palletStack := by
  obtain ⟨i, st, q⟩ := b
  cases st <;> rfl

theorem palletStack_setPos (b : WAgent) (p : Option (Nat × Nat)) :
    (b.setPos p).palletStack = b.palletStack := rfl

theorem palletStack_incMovements (b : WAgent) :
    b.incMovements.palletStack = b.palletStack := by
  obtain ⟨i, st, q⟩ := b
  cases st <;> rfl

theorem palletStack_le_incStack (b : WAgent) :
    b.palletStack ≤ b.incStack.palletStack := by
  obtain ⟨i, st, q⟩ := b
  cases st with
  | box => exact Nat.le_refl _
  | pallet n => exact Nat.le_succ n
  | robot c n => exact Nat.le_refl _

theorem palletStack_incStack_of_pallet (b : WAgent) (h : b.isPallet = true) :
    b.incStack.palletStack = b.palletStack + 1 := by
  obtain ⟨i, st, q⟩ := b
  cases st with
  | box => simp [WAgent.isPallet] at h
  | pallet n => rfl
  | robot c n => simp [WAgent.isPallet] at h

theorem carryFlag_setPos (b : WAgent) (p : Option (Nat × Nat)) :
    (b.setPos p).carryFlag = b.carryFlag := rfl

theorem carryFlag_incStack (b : WAgent) :
    b.incStack.carryFlag = b.carryFlag := by
  obtain ⟨i, st, q⟩ := b
  cases st <;> rfl

theorem carryFlag_incMovements (b : WAgent) :
    b.incMovements.carryFlag = b.carryFlag := by
  obtain ⟨i, st, q⟩ := b
  cases st with
  | box => rfl
  | pallet n => rfl
  | robot c n => cases c <;> rfl

theorem carryFlag_of_state_robot (b : WAgent) (c : Bool) (n : Nat)
    (h : b.state = .robot c n) : b.carryFlag = if c then 1 else 0 := by
  cases c <;> simp [WAgent.carryFlag, h]

theorem setCarrying_state (b : WAgent) (c : Bool) (n : Nat) (d : Bool)
    (h : b.state = .robot c n) : (b.setCarrying d).state = .robot d n := by
  simp [WAgent.setCarrying, h]

theorem gridBoxFlag_setCarrying (b : WAgent) (c : Bool) :
    (b.setCarrying c).gridBoxFlag = b.gridBoxFlag := by
  obtain ⟨i, st, q⟩ := b
  cases st <;> rfl

theorem gridBoxFlag_incStack (b : WAgent) :
    b.incStack.gridBoxFlag = b.gridBoxFlag := by
  obtain ⟨i, st, q⟩ := b
  cases st <;> rfl

theorem gridBoxFlag_of_box_some (b : WAgent) (p : Nat × Nat)
    (hb : b.isBox = true) (hp : b.pos = some p) : b.gridBoxFlag = 1 := by
  obtain ⟨i, st, q⟩ := b
  cases st with
  | box => simp at hp; simp [WAgent.gridBoxFlag, hp]
  | pallet n => simp [WAgent.isBox] at hb
  | robot c n => simp [WAgent.isBox] at hb

theorem gridBoxFlag_setPos_none (b : WAgent) :
    (b.setPos none).gridBoxFlag = 0 := by
  obtain ⟨i, st, q⟩ := b
  cases st <;> rfl

theorem robotMovements_setCarrying (b : WAgent) (c : Bool) :
    (b.setCarrying c).robotMovements = b.robotMovements := by
  obtain ⟨i, st, q⟩ := b
  cases st <;> rfl

theorem robotMovements_setPos (b : WAgent) (p : Option (Nat × Nat)) :
    (b.setPos p).robotMovements = b.robotMovements := rfl

theorem robotMovements_incStack (b : WAgent) :
    b.incStack.robotMovements = b.robotMovements := by
  obtain ⟨i, st, q⟩ := b
  cases st <;> rfl

theorem robotMovements_le_incMovements (b : WAgent) :
    b.robotMovements ≤ b.incMovements.robotMovements := by
  obtain ⟨i, st, q⟩ := b
  cases st with
  | box => exact Nat.le_refl _
  | pallet n => exact Nat.le_refl _
  | robot c n => exact Nat.le_succ n

theorem robotMovements_of_state_robot (b : WAgent) (c : Bool) (n : Nat)
    (h : b.state = .robot c n) : b.robotMovements = n := by
  simp [WAgent.robotMovements, h]

theorem robotMovements_incMovements_of_robot (b : WAgent) (c : Bool) (n : Nat)
    (h : b.state = .robot c n) : b.incMovements.robotMovements = n + 1 := by
  simp [WAgent.incMovements, WAgent.robotMovements, h]

theorem isRobot_of_state_robot (b : WAgent) (c : Bool) (n : Nat)
    (h : b.state = .robot c n) : b.isRobot = true := by
  simp [WAgent.isRobot, h]

theorem filter_cell_head (m : WarehouseModel) (p : Nat × Nat) (pr : WAgent → Bool)
    (b : WAgent) (rest : List WAgent)
    (h : (cellContents m p).filter pr = b :: rest) :
    b ∈ m.agents ∧ pr b = true ∧ b.pos = some p := by
  have hmem : b ∈ (cellContents m p).filter pr := by
    rw [h]; exact List.mem_cons_self b rest
  rw [List.mem_filter] at hmem
  obtain ⟨hcell, hpr⟩ := hmem
  rw [cellContents, List.mem_filter] at hcell
  obtain ⟨hag, hpos⟩ := hcell
  refine ⟨hag, hpr, ?_⟩
  simpa using hpos

theorem uid_ne_of_ne (l : List WAgent)
    (hn : (l.map (fun b => b.unique_id)).Nodup)
    (a b : WAgent) (ha : a ∈ l) (hb : b ∈ l) (hne : a ≠ b) :
    a.unique_id ≠ b.unique_id := by
  intro heq
  exact hne (List.inj_on_of_nodup_map hn ha hb heq)

theorem chain'_append_singleton (l : List Nat) (t : Nat)
    (hc : List.Chain' (fun x y => x ≤ y) l) (hb : ∀ x ∈ l, x ≤ t) :
    List.Chain' (fun x y => x ≤ y) (l ++ [t]) := by
  rw [List.chain'_append]
  refine ⟨hc, List.chain'_singleton _, ?_⟩
  intro x hx y hy
  have hxl : x ∈ l := getLast?_mem_self l x (by simpa using hx)
  have hyt : t = y := by simpa using hy
  rw [← hyt]
  exact hb x hxl

/-! ### Case analysis of a single activation -/

theorem activate_cases (m : WarehouseModel) (id : Nat) (m' : WarehouseModel)
    (h : activate m id = .ok m') :
    (m' = m ∧ moveBranch m id = false) ∨
    (∃ a p mov pallet0 rest,
      findAgent m id = some a ∧ a.pos = some p ∧ a.state = .robot true mov ∧
      (cellContents m p).filter (fun b => b.isPallet) = pallet0 :: rest ∧
      m' = updateAgent (updateAgent m pallet0.unique_id WAgent.incStack) id
             (fun b => b.setCarrying false)) ∨
    (∃ a p mov box0 rest,
      findAgent m id = some a ∧ a.pos = some p ∧ a.state = .robot false mov ∧
      (senseEnvironment m p).1 = true ∧
      (cellContents m p).filter (fun b => b.isBox) = box0 :: rest ∧
      m' = updateAgent (updateAgent m id (fun b => b.setCarrying true))
             box0.unique_id (fun b => b.setPos none)) ∨
    (∃ a p mov np s',
      findAgent m id = some a ∧ a.pos = some p ∧ a.state = .robot false mov ∧
      (senseEnvironment m p).1 = false ∧
      choice (getNeighborhood m.width m.height p) m.rng = .ok (np, s') ∧
      m' = { updateAgent m id (fun b => (b.setPos (some np)).incMovements)
               with rng := s' }) := by
  unfold activate at h
  split at h
  · rename_i hfind
    injection h with h2
    exact Or.inl ⟨h2.symm, by simp [moveBranch, hfind]⟩
  · rename_i a hfind
    split at h
    · rename_i carrying mov p hst hp
      split at h
      · rename_i hcar
        injection h with h2
        rw [drop_box] at h2
        rw [if_pos hcar] at h2
        subst hcar
        cases hfil : (cellContents m p).filter (fun b => b.isPallet) with
        | nil =>
          rw [hfil] at h2
          exact Or.inl ⟨h2.symm, by simp [moveBranch, hfind, hst, hp]⟩
        | cons pallet0 rest =>
          rw [hfil] at h2
          exact Or.inr (Or.inl ⟨a, p, mov, pallet0, rest, hfind, hp, hst, hfil, h2.symm⟩)
      · rename_i hcar
        have hcarF : carrying = false := by
          cases carrying
          · rfl
          · exact absurd rfl hcar
        subst hcarF
        split at h
        · rename_i hsb
          injection h with h2
          rw [pick_box] at h2
          simp only [Bool.false_eq_true, if_false] at h2
          cases hfil : (cellContents m p).filter (fun b => b.isBox) with
          | nil =>
            rw [hfil] at h2
            exact Or.inl ⟨h2.symm, by simp [moveBranch, hfind, hst, hp, hsb]⟩
          | cons box0 rest =>
            rw [hfil] at h2
            exact Or.inr (Or.inr (Or.inl
              ⟨a, p, mov, box0, rest, hfind, hp, hst, hsb, hfil, h2.symm⟩))
        · rename_i hsb
          have hsbF : (senseEnvironment m p).1 = false := by
            cases hval : (senseEnvironment m p).1
            · rfl
            · exact absurd hval hsb
          rw [moveRobot] at h
          cases hch : choice (getNeighborhood m.width m.height p) m.rng with
          | error e =>
            rw [hch] at h
            cases h
          | ok pr =>
            rw [hch] at h
            injection h with h2
            exact Or.inr (Or.inr (Or.inr
              ⟨a, p, mov, pr.1, pr.2, hfind, hp, hst, hsbF, by rw [hch], h2.symm⟩))
    · rename_i hno
      injection h with h2
      refine Or.inl ⟨h2.symm, ?_⟩
      simp only [moveBranch, hfind]

/-! ### Effects of one activation on the model aggregates -/

theorem agents_set_rng (x : WarehouseModel) (s : Nat) :
    ({ x with rng := s } : WarehouseModel).agents = x.agents := rfl

theorem movements_set_rng (x : WarehouseModel) (s : Nat) :
    ({ x with rng := s } : WarehouseModel).movements = x.movements := rfl

theorem movements_updateAgent (m : WarehouseModel) (i : Nat) (f : WAgent → WAgent) :
    (updateAgent m i f).movements = m.movements := rfl

theorem palletSum_updateAgent_le (m : WarehouseModel) (i : Nat) (f : WAgent → WAgent)
    (hf : ∀ b, b.palletStack ≤ (f b).palletStack) :
    palletSum m ≤ palletSum (updateAgent m i f) :=
  aggr_map_update_le _ f i m.agents hf

theorem palletSum_updateAgent_eq (m : WarehouseModel) (i : Nat) (f : WAgent → WAgent)
    (hf : ∀ b, (f b).palletStack = b.palletStack) :
    palletSum (updateAgent m i f) = palletSum m :=
  aggr_map_update_eq _ f i m.agents hf

theorem carryCount_updateAgent_eq (m : WarehouseModel) (i : Nat) (f : WAgent → WAgent)
    (hf : ∀ b, (f b).carryFlag = b.carryFlag) :
    carryCount (updateAgent m i f) = carryCount m :=
  aggr_map_update_eq _ f i m.agents hf

theorem gridBoxCount_updateAgent_eq (m : WarehouseModel) (i : Nat) (f : WAgent → WAgent)
    (hf : ∀ b, (f b).gridBoxFlag = b.gridBoxFlag) :
    gridBoxCount (updateAgent m i f) = gridBoxCount m :=
  aggr_map_update_eq _ f i m.agents hf

theorem activate_ids (m : WarehouseModel) (id : Nat) (m' : WarehouseModel)
    (h : activate m id = .ok m') :
    m'.agents.map (fun a => a.unique_id) = m.agents.map (fun a => a.unique_id) := by
  rcases activate_cases m id m' h with ⟨rfl, _⟩ |
    ⟨a, p, mov, q, rest, hf, hp, hst, hfil, rfl⟩ |
    ⟨a, p, mov, q, rest, hf, hp, hst, hsb, hfil, rfl⟩ |
    ⟨a, p, mov, np, s', hf, hp, hst, hsb, hch, rfl⟩
  · rfl
  · rw [ids_updateAgent (updateAgent m q.unique_id WAgent.incStack) id
        (fun b => b.setCarrying false) (fun b => rfl),
      ids_updateAgent m q.unique_id WAgent.incStack (fun b => rfl)]
  · rw [ids_updateAgent (updateAgent m id (fun b => b.setCarrying true)) q.unique_id
        (fun b => b.setPos none) (fun b => rfl),
      ids_updateAgent m id (fun b => b.setCarrying true) (fun b => rfl)]
  · rw [agents_set_rng,
      ids_updateAgent m id (fun b => (b.setPos (some np)).incMovements) (fun b => rfl)]

theorem activate_movlist (m : WarehouseModel) (id : Nat) (m' : WarehouseModel)
    (h : activate m id = .ok m') : m'.movements = m.movements := by
  rcases activate_cases m id m' h with ⟨rfl, _⟩ |
    ⟨a, p, mov, q, rest, hf, hp, hst, hfil, rfl⟩ |
    ⟨a, p, mov, q, rest, hf, hp, hst, hsb, hfil, rfl⟩ |
    ⟨a, p, mov, np, s', hf, hp, hst, hsb, hch, rfl⟩ <;> rfl

theorem activate_nodup (m : WarehouseModel) (id : Nat) (m' : WarehouseModel)
    (h : activate m id = .ok m') (hn : NodupIds m) : NodupIds m' := by
  unfold NodupIds at hn ⊢
  rw [activate_ids m id m' h]
  exact hn

theorem activate_palletSum_le (m : WarehouseModel) (id : Nat) (m' : WarehouseModel)
    (h : activate m id = .ok m') : palletSum m ≤ palletSum m' := by
  rcases activate_cases m id m' h with ⟨rfl, _⟩ |
    ⟨a, p, mov, q, rest, hf, hp, hst, hfil, rfl⟩ |
    ⟨a, p, mov, q, rest, hf, hp, hst, hsb, hfil, rfl⟩ |
    ⟨a, p, mov, np, s', hf, hp, hst, hsb, hch, rfl⟩
  · exact Nat.le_refl _
  · rw [palletSum_updateAgent_eq _ _ _ (fun b => palletStack_setCarrying b false)]
    exact palletSum_updateAgent_le _ _ _ palletStack_le_incStack
  · rw [palletSum_updateAgent_eq _ _ _ (fun b => palletStack_setPos b none),
      palletSum_updateAgent_eq _ _ _ (fun b => palletStack_setCarrying b true)]
  · show palletSum (updateAgent m id fun b => (b.setPos (some np)).incMovements) ≥ _
    rw [palletSum_updateAgent_eq _ _ _
      (fun b => by rw [palletStack_incMovements, palletStack_setPos])]

theorem sum_filter_robot (l : List WAgent) :
    ((l.filter (fun a => a.isRobot)).map (fun a => a.robotMovements)).sum
      = aggr WAgent.robotMovements l := by
  induction l with
  | nil => rfl
  | cons a t ih =>
    by_cases h : a.isRobot = true
    · rw [List.filter_cons_of_pos h, List.map_cons, List.sum_cons, ih, aggr_cons]
    · have hz : a.robotMovements = 0 := by
        obtain ⟨i, st, q⟩ := a
        cases st with
        | box => rfl
        | pallet n => rfl
        | robot c n => simp [WAgent.isRobot] at h
      rw [List.filter_cons_of_neg h, ih, aggr_cons, hz, Nat.zero_add]

theorem totalMovements_eq_aggr (m : WarehouseModel) :
    totalMovements m = aggr WAgent.robotMovements m.agents :=
  sum_filter_robot m.agents

theorem activate_totalMovements_le (m : WarehouseModel) (id : Nat) (m' : WarehouseModel)
    (h : activate m id = .ok m') : totalMovements m ≤ totalMovements m' := by
  rw [totalMovements_eq_aggr, totalMovements_eq_aggr]
  rcases activate_cases m id m' h with ⟨rfl, _⟩ |
    ⟨a, p, mov, q, rest, hf, hp, hst, hfil, rfl⟩ |
    ⟨a, p, mov, q, rest, hf, hp, hst, hsb, hfil, rfl⟩ |
    ⟨a, p, mov, np, s', hf, hp, hst, hsb, hch, rfl⟩
  · exact Nat.le_refl _
  · have e1 : aggr WAgent.robotMovements
        (updateAgent (updateAgent m q.unique_id WAgent.incStack) id
          (fun b => b.setCarrying false)).agents
        = aggr WAgent.robotMovements (updateAgent m q.unique_id WAgent.incStack).agents :=
      aggr_map_update_eq _ _ _ _ (fun b => robotMovements_setCarrying b false)
    have e2 : aggr WAgent.robotMovements (updateAgent m q.unique_id WAgent.incStack).agents
        = aggr WAgent.robotMovements m.agents :=
      aggr_map_update_eq _ _ _ _ robotMovements_incStack
    rw [e1, e2]
  · have e1 : aggr WAgent.robotMovements
        (updateAgent (updateAgent m id (fun b => b.setCarrying true)) q.unique_id
          (fun b => b.setPos none)).agents
        = aggr WAgent.robotMovements (updateAgent m id (fun b => b.setCarrying true)).agents :=
      aggr_map_update_eq _ _ _ _ (fun b => robotMovements_setPos b none)
    have e2 : aggr WAgent.robotMovements
        (updateAgent m id (fun b => b.setCarrying true)).agents
        = aggr WAgent.robotMovements m.agents :=
      aggr_map_update_eq _ _ _ _ (fun b => robotMovements_setCarrying b true)
    rw [e1, e2]
  · rw [agents_set_rng]
    exact aggr_map_update_le _ _ _ _ (fun b =>
      Nat.le_trans (Nat.le_of_eq (robotMovements_setPos b (some np)).symm)
        (robotMovements_le_incMovements (b.setPos (some np))))

theorem robotMovementsOf_set_rng (x : WarehouseModel) (s : Nat) (rid : Nat) :
    robotMovementsOf { x with rng := s } rid = robotMovementsOf x rid := rfl

theorem robotMovementsOf_updateAgent (m : WarehouseModel) (i : Nat) (f : WAgent → WAgent)
    (hid : ∀ b, (f b).unique_id = b.unique_id) (rid : Nat) :
    robotMovementsOf (updateAgent m i f) rid
      = match findAgent m rid with
        | some b => (if b.unique_id == i then f b else b).robotMovements
        | none => 0 := by
  unfold robotMovementsOf
  rw [findAgent_updateAgent m i rid f hid]
  cases findAgent m rid with
  | none => rfl
  | some b => rfl

theorem robotMovementsOf_updateAgent_eq (m : WarehouseModel) (i : Nat) (f : WAgent → WAgent)
    (hid : ∀ b, (f b).unique_id = b.unique_id)
    (hmov : ∀ b, (f b).robotMovements = b.robotMovements) (rid : Nat) :
    robotMovementsOf (updateAgent m i f) rid = robotMovementsOf m rid := by
  rw [robotMovementsOf_updateAgent m i f hid rid]
  unfold robotMovementsOf
  cases findAgent m rid with
  | none => rfl
  | some b =>
    show (if b.unique_id == i then f b else b).robotMovements = b.robotMovements
    split
    · exact hmov b
    · rfl

theorem moveBranch_false_of_carrying (m : WarehouseModel) (rid : Nat) (a : WAgent)
    (mov : Nat) (hf : findAgent m rid = some a) (hst : a.state = .robot true mov) :
    moveBranch m rid = false := by
  cases hp : a.pos <;> simp [moveBranch, hf, hst, hp]

theorem moveBranch_false_of_sense (m : WarehouseModel) (rid : Nat) (a : WAgent)
    (mov : Nat) (p : Nat × Nat) (hf : findAgent m rid = some a)
    (hst : a.state = .robot false mov) (hp : a.pos = some p)
    (hsb : (senseEnvironment m p).1 = true) : moveBranch m rid = false := by
  simp [moveBranch, hf, hst, hp, hsb]

theorem moveBranch_true_of_move (m : WarehouseModel) (rid : Nat) (a : WAgent)
    (mov : Nat) (p : Nat × Nat) (hf : findAgent m rid = some a)
    (hst : a.state = .robot false mov) (hp : a.pos = some p)
    (hsb : (senseEnvironment m p).1 = false) : moveBranch m rid = true := by
  simp [moveBranch, hf, hst, hp, hsb]

theorem robotMovementsOf_eq_of_state (m : WarehouseModel) (rid : Nat) (a : WAgent)
    (c : Bool) (mov : Nat) (hf : findAgent m rid = some a)
    (hst : a.state = .robot c mov) : robotMovementsOf m rid = mov := by
  unfold robotMovementsOf
  rw [hf]
  exact robotMovements_of_state_robot a c mov hst

/-- Effect of one activation of agent j on the movement counter of the
robot registered under rid: it grows by exactly 1 when j is that robot and
its activation takes the move branch, and is unchanged otherwise. -/
theorem activate_robotMovementsOf (m : WarehouseModel) (j rid : Nat)
    (m' : WarehouseModel) (h : activate m j = .ok m') :
    robotMovementsOf m' rid
      = robotMovementsOf m rid
          + (if j = rid ∧ moveBranch m rid = true then 1 else 0) := by
  rcases activate_cases m j m' h with ⟨heq, hmb⟩ |
    ⟨a, p, mov, q, rest, hfnd, hp, hst, hfil, rfl⟩ |
    ⟨a, p, mov, q, rest, hfnd, hp, hst, hsb, hfil, rfl⟩ |
    ⟨a, p, mov, np, s', hfnd, hp, hst, hsb, hch, rfl⟩
  · subst heq
    have hneg : ¬(j = rid ∧ moveBranch m' rid = true) := by
      rintro ⟨rfl, hmbT⟩
      rw [hmb] at hmbT
      cases hmbT
    rw [if_neg hneg, Nat.add_zero]
  · have hneg : ¬(j = rid ∧ moveBranch m rid = true) := by
      rintro ⟨rfl, hmbT⟩
      rw [moveBranch_false_of_carrying m j a mov hfnd hst] at hmbT
      cases hmbT
    rw [if_neg hneg, Nat.add_zero]
    rw [robotMovementsOf_updateAgent_eq (updateAgent m q.unique_id WAgent.incStack) j
      (fun b => b.setCarrying false) (fun b => rfl)
      (fun b => robotMovements_setCarrying b false) rid]
    exact robotMovementsOf_updateAgent_eq m q.unique_id WAgent.incStack (fun b => rfl)
      robotMovements_incStack rid
  · have hneg : ¬(j = rid ∧ moveBranch m rid = true) := by
      rintro ⟨rfl, hmbT⟩
      rw [moveBranch_false_of_sense m j a mov p hfnd hst hp hsb] at hmbT
      cases hmbT
    rw [if_neg hneg, Nat.add_zero]
    rw [robotMovementsOf_updateAgent_eq (updateAgent m j (fun b => b.setCarrying true))
      q.unique_id (fun b => b.setPos none) (fun b => rfl)
      (fun b => robotMovements_setPos b none) rid]
    exact robotMovementsOf_updateAgent_eq m j (fun b => b.setCarrying true) (fun b => rfl)
      (fun b => robotMovements_setCarrying b true) rid
  · rw [robotMovementsOf_set_rng]
    rw [robotMovementsOf_updateAgent m j (fun b => (b.setPos (some np)).incMovements)
      (fun b => rfl) rid]
    by_cases hjr : j = rid
    · subst hjr
      have hpos : (j = j ∧ moveBranch m j = true) :=
        ⟨rfl, moveBranch_true_of_move m j a mov p hfnd hst hp hsb⟩
      rw [if_pos hpos]
      rw [hfnd]
      have huid : a.unique_id = j := findAgent_uid m j a hfnd
      have hbeq : (a.unique_id == j) = true := by simp [huid]
      rw [robotMovementsOf_eq_of_state m j a false mov hfnd hst]
      show (if a.unique_id == j then (a.setPos (some np)).incMovements
            else a).robotMovements = mov + 1
      rw [if_pos hbeq]
      exact robotMovements_incMovements_of_robot (a.setPos (some np)) false mov hst
    · have hneg : ¬(j = rid ∧ moveBranch m rid = true) := fun hc => hjr hc.1
      rw [if_neg hneg, Nat.add_zero]
      unfold robotMovementsOf
      cases hrid : findAgent m rid with
      | none => rfl
      | some b =>
        have huidb : b.unique_id = rid := findAgent_uid m rid b hrid
        have hbeq : (b.unique_id == j) = false := by
          simp [huidb]
          exact fun hc => hjr hc.symm
        show (if b.unique_id == j then (b.setPos (some np)).incMovements
              else b).robotMovements = b.robotMovements
        rw [hbeq]
        simp

/-! ### Conservation of boxes across one activation -/

theorem nat_beq_false (x y : Nat) (h : x ≠ y) : (x == y) = false := by
  simp [h]

theorem aggr_updateAgent_found (g : WAgent → Nat) (m : WarehouseModel) (a : WAgent)
    (f : WAgent → WAgent) (ha : a ∈ m.agents) (hn : NodupIds m) :
    aggr g (updateAgent m a.unique_id f).agents + g a
      = aggr g m.agents + g (f a) := by
  obtain ⟨s₁, s₂, hms, hupd, -, -⟩ := updateAgent_split m a f ha hn
  rw [hms, hupd, aggr_append, aggr_append, aggr_cons, aggr_cons]
  omega

theorem palletSum_updateAgent_found (m : WarehouseModel) (a : WAgent)
    (f : WAgent → WAgent) (ha : a ∈ m.agents) (hn : NodupIds m) :
    palletSum (updateAgent m a.unique_id f) + a.palletStack
      = palletSum m + (f a).palletStack :=
  aggr_updateAgent_found WAgent.palletStack m a f ha hn

theorem carryCount_updateAgent_found (m : WarehouseModel) (a : WAgent)
    (f : WAgent → WAgent) (ha : a ∈ m.agents) (hn : NodupIds m) :
    carryCount (updateAgent m a.unique_id f) + a.carryFlag
      = carryCount m + (f a).carryFlag :=
  aggr_updateAgent_found WAgent.carryFlag m a f ha hn

theorem gridBoxCount_updateAgent_found (m : WarehouseModel) (a : WAgent)
    (f : WAgent → WAgent) (ha : a ∈ m.agents) (hn : NodupIds m) :
    gridBoxCount (updateAgent m a.unique_id f) + a.gridBoxFlag
      = gridBoxCount m + (f a).gridBoxFlag :=
  aggr_updateAgent_found WAgent.gridBoxFlag m a f ha hn

theorem mem_updateAgent_of_ne (m : WarehouseModel) (i : Nat) (f : WAgent → WAgent)
    (a : WAgent) (ha : a ∈ m.agents) (hne : a.unique_id ≠ i) :
    a ∈ (updateAgent m i f).agents := by
  have h1 : (if a.unique_id == i then f a else a)
      ∈ m.agents.map (fun b => if b.unique_id == i then f b else b) :=
    List.mem_map_of_mem _ ha
  rw [nat_beq_false a.unique_id i hne] at h1
  simp only [Bool.false_eq_true, if_false] at h1
  exact h1

theorem nodup_updateAgent (m : WarehouseModel) (i : Nat) (f : WAgent → WAgent)
    (hid : ∀ b, (f b).unique_id = b.unique_id) (hn : NodupIds m) :
    NodupIds (updateAgent m i f) := by
  unfold NodupIds
  rw [ids_updateAgent m i f hid]
  exact hn

theorem gridBoxFlag_of_state_robot (b : WAgent) (c : Bool) (n : Nat)
    (h : b.state = .robot c n) : b.gridBoxFlag = 0 := by
  simp [WAgent.gridBoxFlag, h]

theorem setPos_state (b : WAgent) (p : Option (Nat × Nat)) :
    (b.setPos p).state = b.state := rfl

theorem incMovements_state_robot (b : WAgent) (c : Bool) (n : Nat)
    (h : b.state = .robot c n) : b.incMovements.state = .robot c (n + 1) := by
  simp [WAgent.incMovements, h]

theorem palletSum_set_rng (x : WarehouseModel) (s : Nat) :
    palletSum { x with rng := s } = palletSum x := rfl

theorem carryCount_set_rng (x : WarehouseModel) (s : Nat) :
    carryCount { x with rng := s } = carryCount x := rfl

theorem gridBoxCount_set_rng (x : WarehouseModel) (s : Nat) :
    gridBoxCount { x with rng := s } = gridBoxCount x := rfl

theorem activate_TickInv (nb : Nat) (m : WarehouseModel) (id : Nat)
    (m' : WarehouseModel) (hn : NodupIds m) (h : activate m id = .ok m')
    (hI : TickInv nb m) : TickInv nb m' := by
  rcases activate_cases m id m' h with ⟨heq, _⟩ |
    ⟨a, p, mov, q, rest, hfnd, hp, hst, hfil, rfl⟩ |
    ⟨a, p, mov, q, rest, hfnd, hp, hst, hsb, hfil, rfl⟩ |
    ⟨a, p, mov, np, s', hfnd, hp, hst, hsb, hch, rfl⟩
  · subst heq
    exact hI
  · -- drop branch: one pallet stack grows, the robot stops carrying
    have ha : a ∈ m.agents := findAgent_mem m id a hfnd
    have hauid : a.unique_id = id := findAgent_uid m id a hfnd
    subst hauid
    obtain ⟨hqmem, hqpal, hqpos⟩ := filter_cell_head m p _ q rest hfil
    have haq : a ≠ q := by
      intro he
      rw [← he] at hqpal
      simp [WAgent.isPallet, hst] at hqpal
    have hqa : q.unique_id ≠ a.unique_id :=
      uid_ne_of_ne m.agents hn q a hqmem ha (Ne.symm haq)
    have ham1 : a ∈ (updateAgent m q.unique_id WAgent.incStack).agents :=
      mem_updateAgent_of_ne m q.unique_id WAgent.incStack a ha
        (fun hc => hqa hc.symm)
    have hnm1 : NodupIds (updateAgent m q.unique_id WAgent.incStack) :=
      nodup_updateAgent m q.unique_id WAgent.incStack (fun b => rfl) hn
    have E1 := palletSum_updateAgent_found m q WAgent.incStack hqmem hn
    rw [palletStack_incStack_of_pallet q hqpal] at E1
    have E2 : carryCount (updateAgent m q.unique_id WAgent.incStack) = carryCount m :=
      carryCount_updateAgent_eq m q.unique_id WAgent.incStack carryFlag_incStack
    have E3 : gridBoxCount (updateAgent m q.unique_id WAgent.incStack) = gridBoxCount m :=
      gridBoxCount_updateAgent_eq m q.unique_id WAgent.incStack gridBoxFlag_incStack
    have E4 : palletSum (updateAgent (updateAgent m q.unique_id WAgent.incStack)
          a.unique_id (fun b => b.setCarrying false))
        = palletSum (updateAgent m q.unique_id WAgent.incStack) :=
      palletSum_updateAgent_eq _ a.unique_id (fun b => b.setCarrying false)
        (fun b => palletStack_setCarrying b false)
    have E5 := carryCount_updateAgent_found (updateAgent m q.unique_id WAgent.incStack)
      a (fun b => b.setCarrying false) ham1 hnm1
    have hc1 : a.carryFlag = 1 := by
      simp [carryFlag_of_state_robot a true mov hst]
    have hc0 : (a.setCarrying false).carryFlag = 0 := by
      simp [carryFlag_of_state_robot (a.setCarrying false) false mov
        (setCarrying_state a true mov false hst)]
    rw [hc1, hc0] at E5
    have E6 : gridBoxCount (updateAgent (updateAgent m q.unique_id WAgent.incStack)
          a.unique_id (fun b => b.setCarrying false))
        = gridBoxCount (updateAgent m q.unique_id WAgent.incStack) :=
      gridBoxCount_updateAgent_eq _ a.unique_id (fun b => b.setCarrying false)
        (fun b => gridBoxFlag_setCarrying b false)
    unfold TickInv at hI ⊢
    omega
  · -- pick branch: the robot starts carrying, one box leaves the grid
    have ha : a ∈ m.agents := findAgent_mem m id a hfnd
    have hauid : a.unique_id = id := findAgent_uid m id a hfnd
    subst hauid
    obtain ⟨hqmem, hqbox, hqpos⟩ := filter_cell_head m p _ q rest hfil
    have haq : a ≠ q := by
      intro he
      rw [← he] at hqbox
      simp [WAgent.isBox, hst] at hqbox
    have hqa : q.unique_id ≠ a.unique_id :=
      uid_ne_of_ne m.agents hn q a hqmem ha (Ne.symm haq)
    have hqm1 : q ∈ (updateAgent m a.unique_id (fun b => b.setCarrying true)).agents :=
      mem_updateAgent_of_ne m a.unique_id (fun b => b.setCarrying true) q hqmem hqa
    have hnm1 : NodupIds (updateAgent m a.unique_id (fun b => b.setCarrying true)) :=
      nodup_updateAgent m a.unique_id (fun b => b.setCarrying true) (fun b => rfl) hn
    have E1 := carryCount_updateAgent_found m a (fun b => b.setCarrying true) ha hn
    have hc0 : a.carryFlag = 0 := by
      simp [carryFlag_of_state_robot a false mov hst]
    have hc1 : (a.setCarrying true).carryFlag = 1 := by
      simp [carryFlag_of_state_robot (a.setCarrying true) true mov
        (setCarrying_state a false mov true hst)]
    rw [hc0, hc1] at E1
    have E2 : palletSum (updateAgent m a.unique_id (fun b => b.setCarrying true))
        = palletSum m :=
      palletSum_updateAgent_eq m a.unique_id (fun b => b.setCarrying true)
        (fun b => palletStack_setCarrying b true)
    have E3 : gridBoxCount (updateAgent m a.unique_id (fun b => b.setCarrying true))
        = gridBoxCount m :=
      gridBoxCount_updateAgent_eq m a.unique_id (fun b => b.setCarrying true)
        (fun b => gridBoxFlag_setCarrying b true)
    have E4 := gridBoxCount_updateAgent_found
      (updateAgent m a.unique_id (fun b => b.setCarrying true)) q
      (fun b => b.setPos none) hqm1 hnm1
    have hg1 : q.gridBoxFlag = 1 := gridBoxFlag_of_box_some q p hqbox hqpos
    have hg0 : (q.setPos none).gridBoxFlag = 0 := gridBoxFlag_setPos_none q
    rw [hg1, hg0] at E4
    have E5 : palletSum (updateAgent (updateAgent m a.unique_id
          (fun b => b.setCarrying true)) q.unique_id (fun b => b.setPos none))
        = palletSum (updateAgent m a.unique_id (fun b => b.setCarrying true)) :=
      palletSum_updateAgent_eq _ q.unique_id (fun b => b.setPos none)
        (fun b => palletStack_setPos b none)
    have E6 : carryCount (updateAgent (updateAgent m a.unique_id
          (fun b => b.setCarrying true)) q.unique_id (fun b => b.setPos none))
        = carryCount (updateAgent m a.unique_id (fun b => b.setCarrying true)) :=
      carryCount_updateAgent_eq _ q.unique_id (fun b => b.setPos none)
        (fun b => carryFlag_setPos b none)
    unfold TickInv at hI ⊢
    omega
  · -- move branch: no stack, carrying or grid-box quantity changes
    have ha : a ∈ m.agents := findAgent_mem m id a hfnd
    have hauid : a.unique_id = id := findAgent_uid m id a hfnd
    subst hauid
    have E1 : palletSum (updateAgent m a.unique_id
          (fun b => (b.setPos (some np)).incMovements))
        = palletSum m :=
      palletSum_updateAgent_eq m a.unique_id _
        (fun b => by rw [palletStack_incMovements, palletStack_setPos])
    have E2 : carryCount (updateAgent m a.unique_id
          (fun b => (b.setPos (some np)).incMovements))
        = carryCount m :=
      carryCount_updateAgent_eq m a.unique_id _
        (fun b => by rw [carryFlag_incMovements, carryFlag_setPos])
    have E3 := gridBoxCount_updateAgent_found m a
      (fun b => (b.setPos (some np)).incMovements) ha hn
    have hg0 : a.gridBoxFlag = 0 := gridBoxFlag_of_state_robot a false mov hst
    have hg0' : ((a.setPos (some np)).incMovements).gridBoxFlag = 0 :=
      gridBoxFlag_of_state_robot _ false (mov + 1)
        (incMovements_state_robot (a.setPos (some np)) false mov hst)
    rw [hg0, hg0'] at E3
    unfold TickInv at hI ⊢
    rw [palletSum_set_rng, carryCount_set_rng, gridBoxCount_set_rng]
    omega

/-! ### Lifting activation effects through a whole tick -/

theorem runOrder_ids (o : List Nat) : ∀ (m m' : WarehouseModel),
    runOrder o m = .ok m' →
    m'.agents.map (fun a => a.unique_id) = m.agents.map (fun a => a.unique_id) := by
  induction o with
  | nil =>
    intro m m' h
    injection h with h2
    rw [h2]
  | cons id rest ih =>
    intro m m' h
    unfold runOrder at h
    cases hact : activate m id with
    | error e =>
      rw [hact] at h
      cases h
    | ok m₁ =>
      rw [hact] at h
      rw [ih m₁ m' h]
      exact activate_ids m id m₁ hact

theorem runOrder_movlist (o : List Nat) : ∀ (m m' : WarehouseModel),
    runOrder o m = .ok m' → m'.movements = m.movements := by
  induction o with
  | nil =>
    intro m m' h
    injection h with h2
    rw [h2]
  | cons id rest ih =>
    intro m m' h
    unfold runOrder at h
    cases hact : activate m id with
    | error e =>
      rw [hact] at h
      cases h
    | ok m₁ =>
      rw [hact] at h
      rw [ih m₁ m' h]
      exact activate_movlist m id m₁ hact

theorem runOrder_nodup (o : List Nat) : ∀ (m m' : WarehouseModel),
    runOrder o m = .ok m' → NodupIds m → NodupIds m' := by
  intro m m' h hn
  unfold NodupIds at hn ⊢
  rw [runOrder_ids o m m' h]
  exact hn

theorem runOrder_TickInv (nb : Nat) (o : List Nat) : ∀ (m m' : WarehouseModel),
    runOrder o m = .ok m' → NodupIds m → TickInv nb m → TickInv nb m' := by
  induction o with
  | nil =>
    intro m m' h hn hI
    injection h with h2
    rw [← h2]
    exact hI
  | cons id rest ih =>
    intro m m' h hn hI
    unfold runOrder at h
    cases hact : activate m id with
    | error e =>
      rw [hact] at h
      cases h
    | ok m₁ =>
      rw [hact] at h
      exact ih m₁ m' h (activate_nodup m id m₁ hact hn)
        (activate_TickInv nb m id m₁ hn hact hI)

theorem runOrder_palletSum_le (o : List Nat) : ∀ (m m' : WarehouseModel),
    runOrder o m = .ok m' → palletSum m ≤ palletSum m' := by
  induction o with
  | nil =>
    intro m m' h
    injection h with h2
    rw [h2]
  | cons id rest ih =>
    intro m m' h
    unfold runOrder at h
    cases hact : activate m id with
    | error e =>
      rw [hact] at h
      cases h
    | ok m₁ =>
      rw [hact] at h
      exact Nat.le_trans (activate_palletSum_le m id m₁ hact) (ih m₁ m' h)

theorem runOrder_totalMovements_le (o : List Nat) : ∀ (m m' : WarehouseModel),
    runOrder o m = .ok m' → totalMovements m ≤ totalMovements m' := by
  induction o with
  | nil =>
    intro m m' h
    injection h with h2
    rw [h2]
  | cons id rest ih =>
    intro m m' h
    unfold runOrder at h
    cases hact : activate m id with
    | error e =>
      rw [hact] at h
      cases h
    | ok m₁ =>
      rw [hact] at h
      exact Nat.le_trans (activate_totalMovements_le m id m₁ hact) (ih m₁ m' h)

theorem runOrder_movementsOf_not_mem (o : List Nat) (rid : Nat) :
    ∀ (m m' : WarehouseModel), runOrder o m = .ok m' → rid ∉ o →
    robotMovementsOf m' rid = robotMovementsOf m rid := by
  induction o with
  | nil =>
    intro m m' h _
    injection h with h2
    rw [h2]
  | cons id rest ih =>
    intro m m' h hni
    unfold runOrder at h
    cases hact : activate m id with
    | error e =>
      rw [hact] at h
      cases h
    | ok m₁ =>
      rw [hact] at h
      have hne : id ≠ rid := fun hc => hni (hc ▸ List.mem_cons_self id rest)
      have e1 := activate_robotMovementsOf m id rid m₁ hact
      rw [if_neg (fun hc => hne hc.1), Nat.add_zero] at e1
      rw [ih m₁ m' h (fun hc => hni (List.mem_cons_of_mem id hc)), e1]

theorem runOrder_movementsOf_le (o : List Nat) (rid : Nat) :
    ∀ (m m' : WarehouseModel), runOrder o m = .ok m' →
    robotMovementsOf m rid ≤ robotMovementsOf m' rid := by
  induction o with
  | nil =>
    intro m m' h
    injection h with h2
    rw [h2]
  | cons id rest ih =>
    intro m m' h
    unfold runOrder at h
    cases hact : activate m id with
    | error e =>
      rw [hact] at h
      cases h
    | ok m₁ =>
      rw [hact] at h
      have e1 := activate_robotMovementsOf m id rid m₁ hact
      have : robotMovementsOf m rid ≤ robotMovementsOf m₁ rid := by
        rw [e1]
        exact Nat.le_add_right _ _
      exact Nat.le_trans this (ih m₁ m' h)

theorem runOrder_append (o₁ o₂ : List Nat) : ∀ (m m' : WarehouseModel),
    runOrder (o₁ ++ o₂) m = .ok m' →
    ∃ mid, runOrder o₁ m = .ok mid ∧ runOrder o₂ mid = .ok m' := by
  induction o₁ with
  | nil =>
    intro m m' h
    exact ⟨m, rfl, h⟩
  | cons id rest ih =>
    intro m m' h
    rw [List.cons_append] at h
    unfold runOrder at h
    cases hact : activate m id with
    | error e =>
      rw [hact] at h
      cases h
    | ok m₁ =>
      rw [hact] at h
      obtain ⟨mid, h1, h2⟩ := ih m₁ m' h
      refine ⟨mid, ?_, h2⟩
      unfold runOrder
      rw [hact]
      exact h1

/-! ### Scheduler-tick level lemmas -/

theorem scheduleStep_decomp (m m' : WarehouseModel) (h : scheduleStep m = .ok m') :
    runOrder (shuffle (m.agents.map (fun a => a.unique_id)) m.rng).1
      { m with rng := (shuffle (m.agents.map (fun a => a.unique_id)) m.rng).2 }
      = .ok m' := h

theorem scheduleStep_ids (m m' : WarehouseModel) (h : scheduleStep m = .ok m') :
    m'.agents.map (fun a => a.unique_id) = m.agents.map (fun a => a.unique_id) := by
  have h2 := runOrder_ids _ _ _ (scheduleStep_decomp m m' h)
  exact h2

theorem scheduleStep_movlist (m m' : WarehouseModel) (h : scheduleStep m = .ok m') :
    m'.movements = m.movements := by
  have h2 := runOrder_movlist _ _ _ (scheduleStep_decomp m m' h)
  exact h2

theorem scheduleStep_nodup (m m' : WarehouseModel) (h : scheduleStep m = .ok m')
    (hn : NodupIds m) : NodupIds m' :=
  runOrder_nodup _ _ _ (scheduleStep_decomp m m' h) hn

theorem scheduleStep_TickInv (nb : Nat) (m m' : WarehouseModel)
    (h : scheduleStep m = .ok m') (hn : NodupIds m) (hI : TickInv nb m) :
    TickInv nb m' := by
  refine runOrder_TickInv nb _ _ _ (scheduleStep_decomp m m' h) hn ?_
  unfold TickInv at hI ⊢
  rw [palletSum_set_rng, carryCount_set_rng, gridBoxCount_set_rng]
  exact hI

theorem scheduleStep_palletSum_le (m m' : WarehouseModel)
    (h : scheduleStep m = .ok m') : palletSum m ≤ palletSum m' := by
  have := runOrder_palletSum_le _ _ _ (scheduleStep_decomp m m' h)
  rw [palletSum_set_rng] at this
  exact this

theorem scheduleStep_totalMovements_le (m m' : WarehouseModel)
    (h : scheduleStep m = .ok m') : totalMovements m ≤ totalMovements m' := by
  have := runOrder_totalMovements_le _ _ _ (scheduleStep_decomp m m' h)
  have e : totalMovements { m with rng :=
      (shuffle (m.agents.map (fun a => a.unique_id)) m.rng).2 } = totalMovements m := rfl
  rw [e] at this
  exact this

/-! ### Full model-step level lemmas -/

theorem step_decomp (m m' : WarehouseModel) (h : m.step = .ok m') :
    ∃ ms, scheduleStep m = .ok ms ∧
      m' = { ms with movements := ms.movements ++ [totalMovements ms] } := by
  unfold WarehouseModel.step at h
  cases hs : scheduleStep m with
  | error e =>
    rw [hs] at h
    cases h
  | ok ms =>
    rw [hs] at h
    injection h with h2
    exact ⟨ms, rfl, h2.symm⟩

theorem palletSum_set_movements (x : WarehouseModel) (l : List Nat) :
    palletSum { x with movements := l } = palletSum x := rfl

theorem carryCount_set_movements (x : WarehouseModel) (l : List Nat) :
    carryCount { x with movements := l } = carryCount x := rfl

theorem gridBoxCount_set_movements (x : WarehouseModel) (l : List Nat) :
    gridBoxCount { x with movements := l } = gridBoxCount x := rfl

theorem totalMovements_set_movements (x : WarehouseModel) (l : List Nat) :
    totalMovements { x with movements := l } = totalMovements x := rfl

theorem agents_set_movements (x : WarehouseModel) (l : List Nat) :
    ({ x with movements := l } : WarehouseModel).agents = x.agents := rfl

theorem step_ids (m m' : WarehouseModel) (h : m.step = .ok m') :
    m'.agents.map (fun a => a.unique_id) = m.agents.map (fun a => a.unique_id) := by
  obtain ⟨ms, hs, rfl⟩ := step_decomp m m' h
  rw [agents_set_movements]
  exact scheduleStep_ids m ms hs

theorem step_nodup (m m' : WarehouseModel) (h : m.step = .ok m')
    (hn : NodupIds m) : NodupIds m' := by
  unfold NodupIds at hn ⊢
  rw [step_ids m m' h]
  exact hn

theorem step_TickInv (nb : Nat) (m m' : WarehouseModel) (h : m.step = .ok m')
    (hn : NodupIds m) (hI : TickInv nb m) : TickInv nb m' := by
  obtain ⟨ms, hs, rfl⟩ := step_decomp m m' h
  have := scheduleStep_TickInv nb m ms hs hn hI
  unfold TickInv at this ⊢
  rw [palletSum_set_movements, carryCount_set_movements, gridBoxCount_set_movements]
  exact this

theorem step_palletSum_le (m m' : WarehouseModel) (h : m.step = .ok m') :
    palletSum m ≤ palletSum m' := by
  obtain ⟨ms, hs, rfl⟩ := step_decomp m m' h
  rw [palletSum_set_movements]
  exact scheduleStep_palletSum_le m ms hs

/-! ### The shuffle is a permutation -/

theorem getD_cons_eraseIdx_perm {α : Type} : ∀ (l : List α) (i : Nat) (d : α),
    i < l.length → List.Perm (l.getD i d :: l.eraseIdx i) l := by
  intro l
  induction l with
  | nil =>
    intro i d h
    exact absurd h (Nat.not_lt_zero i)
  | cons a t ih =>
    intro i d h
    cases i with
    | zero => exact List.Perm.refl _
    | succ n =>
      have hn : n < t.length := Nat.lt_of_succ_lt_succ h
      have h1 : List.Perm (t.getD n d :: a :: t.eraseIdx n)
          (a :: t.getD n d :: t.eraseIdx n) := List.Perm.swap a (t.getD n d) _
      exact h1.trans (List.Perm.cons a (ih n d hn))

theorem shuffleGo_perm {α : Type} : ∀ (n : Nat) (l : List α) (s : Nat),
    l.length = n → List.Perm (shuffleGo n l s).1 l := by
  intro n
  induction n with
  | zero =>
    intro l s hl
    cases l with
    | nil => exact List.Perm.refl _
    | cons a t => simp at hl
  | succ n ih =>
    intro l s hl
    cases l with
    | nil => exact List.Perm.refl _
    | cons a t =>
      have hi : rngNext s % (t.length + 1) < (a :: t).length := by
        rw [List.length_cons]
        exact Nat.mod_lt _ (Nat.succ_pos _)
      have hlen : ((a :: t).eraseIdx (rngNext s % (t.length + 1))).length = n := by
        rw [List.length_eraseIdx, if_pos hi]
        simp only [List.length_cons] at hl ⊢
        omega
      have hperm := ih _ (rngNext s) hlen
      have h2 := getD_cons_eraseIdx_perm (a :: t) (rngNext s % (t.length + 1)) a hi
      exact (List.Perm.cons _ hperm).trans h2

theorem shuffle_perm {α : Type} (l : List α) (s : Nat) :
    List.Perm (shuffle l s).1 l :=
  shuffleGo_perm l.length l s rfl

theorem nodup_split_middle {α : Type} (o₁ o₂ : List α) (x : α)
    (hn : (o₁ ++ x :: o₂).Nodup) : x ∉ o₁ ∧ x ∉ o₂ := by
  rw [List.nodup_middle, List.nodup_cons, List.mem_append] at hn
  exact ⟨fun hc => hn.1 (Or.inl hc), fun hc => hn.1 (Or.inr hc)⟩

/-! ### Properties established by the constructor -/

theorem aggr_eq_zero (g : WAgent → Nat) (l : List WAgent)
    (h : ∀ a ∈ l, g a = 0) : aggr g l = 0 := by
  induction l with
  | nil => rfl
  | cons a t ih =>
    rw [aggr_cons, h a (List.mem_cons_self a t),
      ih (fun b hb => h b (List.mem_cons_of_mem a hb))]

theorem aggr_eq_length (g : WAgent → Nat) (l : List WAgent)
    (h : ∀ a ∈ l, g a = 1) : aggr g l = l.length := by
  induction l with
  | nil => rfl
  | cons a t ih =>
    rw [aggr_cons, h a (List.mem_cons_self a t),
      ih (fun b hb => h b (List.mem_cons_of_mem a hb)), List.length_cons]
    omega

theorem createAgents_spec (st : AgentState) : ∀ (cnt startId w h s : Nat)
    (l : List WAgent) (s' : Nat),
    createAgents st startId cnt w h s = .ok (l, s') →
    l.map (fun a => a.unique_id) = List.range' startId cnt ∧
    (∀ a ∈ l, a.state = st ∧ ∃ q, a.pos = some q) := by
  intro cnt
  induction cnt with
  | zero =>
    intro startId w h s l s' hc
    unfold createAgents at hc
    injection hc with hc2
    injection hc2 with hl hs
    constructor
    · rw [← hl]
      rfl
    · intro a ha
      rw [← hl] at ha
      cases ha
  | succ n ih =>
    intro startId w h s l s' hc
    unfold createAgents at hc
    cases h1 : randrange w s with
    | error e =>
      simp only [h1] at hc
      cases hc
    | ok p1 =>
      obtain ⟨x, s₁⟩ := p1
      simp only [h1] at hc
      cases h2 : randrange h s₁ with
      | error e =>
        simp only [h2] at hc
        cases hc
      | ok p2 =>
        obtain ⟨y, s₂⟩ := p2
        simp only [h2] at hc
        cases h3 : createAgents st (startId + 1) n w h s₂ with
        | error e =>
          simp only [h3] at hc
          cases hc
        | ok p3 =>
          obtain ⟨rest, s₃⟩ := p3
          simp only [h3] at hc
          injection hc with hc2
          injection hc2 with hl hs
          subst hl
          obtain ⟨ihids, ihmem⟩ := ih (startId + 1) w h s₂ rest s₃ h3
          constructor
          · rw [List.map_cons, ihids]
            rfl
          · intro a ha
            cases ha with
            | head => exact ⟨rfl, (x, y), rfl⟩
            | tail _ hmem => exact ihmem a hmem

theorem createAgents_ok (st : AgentState) : ∀ (cnt startId w h s : Nat),
    0 < w → 0 < h → ∃ l s', createAgents st startId cnt w h s = .ok (l, s') := by
  intro cnt
  induction cnt with
  | zero =>
    intro startId w h s hw hh
    exact ⟨[], s, rfl⟩
  | succ n ih =>
    intro startId w h s hw hh
    obtain ⟨rest, s₃, h3⟩ := ih (startId + 1) w h (rngNext (rngNext s)) hw hh
    refine ⟨⟨startId, st, some (rngNext s % w, rngNext (rngNext s) % h)⟩ :: rest, s₃, ?_⟩
    have hw' : randrange w s = .ok (rngNext s % w, rngNext s) := by
      unfold randrange
      rw [if_neg (Nat.pos_iff_ne_zero.mp hw)]
    have hh' : randrange h (rngNext s) = .ok (rngNext (rngNext s) % h, rngNext (rngNext s)) := by
      unfold randrange
      rw [if_neg (Nat.pos_iff_ne_zero.mp hh)]
    unfold createAgents
    simp only [hw', hh', h3]

theorem nodup_ids_three (nb np nr : Nat) :
    (List.range' 0 nb ++ List.range' nb np ++ List.range' (nb + np) nr).Nodup := by
  apply List.Nodup.append
  · apply List.Nodup.append
    · exact List.nodup_range' _ _
    · exact List.nodup_range' _ _
    · intro x hx hy
      rw [List.mem_range'_1] at hx hy
      omega
  · exact List.nodup_range' _ _
  · intro x hx hy
    rw [List.mem_range'_1] at hy
    rw [List.mem_append] at hx
    rcases hx with hx | hx <;> rw [List.mem_range'_1] at hx <;> omega

theorem init_spec (width height num_boxes num_robots num_pallets seed : Nat)
    (m : WarehouseModel)
    (h : WarehouseModel.init width height num_boxes num_robots num_pallets seed = .ok m) :
    NodupIds m ∧ TickInv num_boxes m ∧ m.movements = [] := by
  unfold WarehouseModel.init at h
  cases h1 : createAgents .box 0 num_boxes width height seed with
  | error e =>
    simp only [h1] at h
    cases h
  | ok p1 =>
    obtain ⟨boxes, s₁⟩ := p1
    simp only [h1] at h
    cases h2 : createAgents (.pallet 0) num_boxes num_pallets width height s₁ with
    | error e =>
      simp only [h2] at h
      cases h
    | ok p2 =>
      obtain ⟨pallets, s₂⟩ := p2
      simp only [h2] at h
      cases h3 : createAgents (.robot false 0) (num_boxes + num_pallets)
          num_robots width height s₂ with
      | error e =>
        simp only [h3] at h
        cases h
      | ok p3 =>
        obtain ⟨robots, s₃⟩ := p3
        simp only [h3] at h
        injection h with h4
        obtain ⟨bids, bmem⟩ := createAgents_spec .box num_boxes 0 width height seed
          boxes s₁ h1
        obtain ⟨pids, pmem⟩ := createAgents_spec (.pallet 0) num_pallets num_boxes
          width height s₁ pallets s₂ h2
        obtain ⟨rids, rmem⟩ := createAgents_spec (.robot false 0) num_robots
          (num_boxes + num_pallets) width height s₂ robots s₃ h3
        have hagents : m.agents = boxes ++ pallets ++ robots := by
          rw [← h4]
        have hmov : m.movements = [] := by
          rw [← h4]
        have hids : m.agents.map (fun a => a.unique_id)
            = List.range' 0 num_boxes ++ List.range' num_boxes num_pallets
              ++ List.range' (num_boxes + num_pallets) num_robots := by
          rw [hagents, List.map_append, List.map_append, bids, pids, rids]
        have hnodup : NodupIds m := by
          unfold NodupIds
          rw [hids]
          exact nodup_ids_three num_boxes num_pallets num_robots
        have hblen : boxes.length = num_boxes := by
          have : (boxes.map (fun a => a.unique_id)).length
              = (List.range' 0 num_boxes).length := by rw [bids]
          simpa using this
        have hI : TickInv num_boxes m := by
          unfold TickInv palletSum carryCount gridBoxCount
          rw [hagents, aggr_append, aggr_append, aggr_append, aggr_append,
            aggr_append, aggr_append]
          have b1 : aggr WAgent.palletStack boxes = 0 :=
            aggr_eq_zero _ _ (fun a ha => by
              obtain ⟨hst, -⟩ := bmem a ha
              simp [WAgent.palletStack, hst])
          have b2 : aggr WAgent.carryFlag boxes = 0 :=
            aggr_eq_zero _ _ (fun a ha => by
              obtain ⟨hst, -⟩ := bmem a ha
              simp [WAgent.carryFlag, hst])
          have b3 : aggr WAgent.gridBoxFlag boxes = boxes.length :=
            aggr_eq_length _ _ (fun a ha => by
              obtain ⟨hst, q, hq⟩ := bmem a ha
              simp [WAgent.gridBoxFlag, hst, hq])
          have p1 : aggr WAgent.palletStack pallets = 0 :=
            aggr_eq_zero _ _ (fun a ha => by
              obtain ⟨hst, -⟩ := pmem a ha
              simp [WAgent.palletStack, hst])
          have p2 : aggr WAgent.carryFlag pallets = 0 :=
            aggr_eq_zero _ _ (fun a ha => by
              obtain ⟨hst, -⟩ := pmem a ha
              simp [WAgent.carryFlag, hst])
          have p3 : aggr WAgent.gridBoxFlag pallets = 0 :=
            aggr_eq_zero _ _ (fun a ha => by
              obtain ⟨hst, -⟩ := pmem a ha
              simp [WAgent.gridBoxFlag, hst])
          have r1 : aggr WAgent.palletStack robots = 0 :=
            aggr_eq_zero _ _ (fun a ha => by
              obtain ⟨hst, -⟩ := rmem a ha
              simp [WAgent.palletStack, hst])
          have r2 : aggr WAgent.carryFlag robots = 0 :=
            aggr_eq_zero _ _ (fun a ha => by
              obtain ⟨hst, -⟩ := rmem a ha
              simp [WAgent.carryFlag, hst])
          have r3 : aggr WAgent.gridBoxFlag robots = 0 :=
            aggr_eq_zero _ _ (fun a ha => by
              obtain ⟨hst, -⟩ := rmem a ha
              simp [WAgent.gridBoxFlag, hst])
          rw [b1, b2, b3, p1, p2, p3, r1, r2, r3, hblen]
          omega
        exact ⟨hnodup, hI, hmov⟩

/-! ### Iterated steps -/

theorem stepN_inv (nb : Nat) : ∀ (n : Nat) (m mN : WarehouseModel),
    stepN n m = .ok mN → NodupIds m → TickInv nb m →
    NodupIds mN ∧ TickInv nb mN := by
  intro n
  induction n with
  | zero =>
    intro m mN h hn hI
    injection h with h2
    rw [← h2]
    exact ⟨hn, hI⟩
  | succ n ih =>
    intro m mN h hn hI
    unfold stepN at h
    cases hs : m.step with
    | error e =>
      rw [hs] at h
      cases h
    | ok m₁ =>
      rw [hs] at h
      exact ih m₁ mN h (step_nodup m m₁ hs hn) (step_TickInv nb m m₁ hs hn hI)

theorem palletSum_le_of_TickInv (nb : Nat) (m : WarehouseModel)
    (hI : TickInv nb m) : palletSum m ≤ nb := by
  unfold TickInv at hI
  omega

theorem sense_box_filter_ne (m : WarehouseModel) (p : Nat × Nat)
    (h : (senseEnvironment m p).1 = true) :
    (cellContents m p).filter (fun b => b.isBox) ≠ [] := by
  intro hc
  unfold senseEnvironment at h
  simp only [List.any_eq_true] at h
  obtain ⟨x, hx, hbx⟩ := h
  have hmem : x ∈ (cellContents m p).filter (fun b => b.isBox) :=
    List.mem_filter.mpr ⟨hx, hbx⟩
  rw [hc] at hmem
  cases hmem

theorem mem_dedupFirst {α : Type} [DecidableEq α] :
    ∀ (l : List α) (x : α), x ∈ dedupFirst l ↔ x ∈ l := by
  intro l
  induction l with
  | nil => intro x; rfl
  | cons a t ih =>
    intro x
    unfold dedupFirst
    by_cases hx : x = a
    · subst hx
      simp
    · simp only [List.mem_cons, List.mem_filter]
      constructor
      · rintro (rfl | ⟨hmem, -⟩)
        · exact Or.inl rfl
        · exact Or.inr ((ih x).mp hmem)
      · rintro (rfl | hmem2)
        · exact Or.inl rfl
        · exact Or.inr ⟨(ih x).mpr hmem2, by simpa using hx⟩

theorem nodup_dedupFirst {α : Type} [DecidableEq α] :
    ∀ (l : List α), (dedupFirst l).Nodup := by
  intro l
  induction l with
  | nil => exact List.nodup_nil
  | cons a t ih =>
    unfold dedupFirst
    rw [List.nodup_cons]
    constructor
    · intro hmem
      rw [List.mem_filter] at hmem
      simp at hmem
    · exact List.Nodup.filter _ ih

/-! ### Claim theorems -/

/-- Claim C1 (code bug): the spec's completion check compares the pallet
stack total against the configured total box count and is true at tick 0
when num_boxes = 0.  The source's all_boxes_stacked (line 118) instead
compares the total against the literal 20, so a freshly constructed model
with num_boxes = 0 — whose zero boxes are all vacuously delivered and
whose pallet sum is 0 — reports false.  This theorem evaluates the code
at that failing input. -/
theorem C1_all_boxes_stacked_hardcoded_twenty :
    (WarehouseModel.init 10 10 0 5 5 3).map
      (fun mm => (all_boxes_stacked mm, palletSum mm)) = .ok (false, 0) := rfl

/-- Claim C2 (code bug): the spec says exactly one of drop, pick or move
fires per activation in priority order, and that a robot moves (with
movement_count rising by 1) whenever neither the drop condition (carrying
and a pallet in its cell) nor the pick condition (idle and a box in its
cell) holds.  In the source, a carrying robot on a cell with no pallet
calls drop_box, which silently does nothing: the activation returns the
model unchanged — the robot neither moves nor updates any counter, and
therefore stays frozen forever.  This theorem evaluates the activation at
such a state. -/
theorem C2_laden_robot_stalls :
    activate ladenRobotModel 0 = .ok ladenRobotModel ∧
    moveBranch ladenRobotModel 0 = false ∧
    robotMovementsOf ladenRobotModel 0 = 0 := ⟨rfl, rfl, rfl⟩

/-- Claim C3: along every run (any number of completed ticks from a
constructed model), the sum of stack_count over all pallets never exceeds
the configured num_boxes, and one further completed tick can only keep it
equal or increase it. -/
theorem C3_palletSum_monotone_bounded
    (width height num_boxes num_robots num_pallets seed n : Nat)
    (m₀ mN : WarehouseModel)
    (h₀ : WarehouseModel.init width height num_boxes num_robots num_pallets seed
      = .ok m₀)
    (hn : stepN n m₀ = .ok mN) :
    palletSum mN ≤ num_boxes ∧
    ∀ m', mN.step = .ok m' → palletSum mN ≤ palletSum m' := by
  obtain ⟨hnod, hI, -⟩ := init_spec width height num_boxes num_robots num_pallets
    seed m₀ h₀
  obtain ⟨-, hIN⟩ := stepN_inv num_boxes n m₀ mN hn hnod hI
  exact ⟨palletSum_le_of_TickInv num_boxes mN hIN,
    fun m' h' => step_palletSum_le mN m' h'⟩

theorem C3_witness : palletSum (stepNResult 1 smallInitModel) ≤ 1 :=
  (C3_palletSum_monotone_bounded 2 2 1 1 1 0 1 smallInitModel
    (stepNResult 1 smallInitModel) rfl rfl).1

/-- Claim C4 counterexample: constructing a model with num_robots = 0 (and
otherwise plausible parameters) succeeds and yields a model containing no
robot agents, instead of failing with a descriptive error as the claim
requires. -/
theorem C4_zero_robots_construction_succeeds :
    exceptOk (WarehouseModel.init 10 10 20 0 5 7) = true ∧
    (WarehouseModel.init 10 10 20 0 5 7).map
      (fun mm => (mm.agents.filter (fun a => a.isRobot)).length) = .ok 0 :=
  ⟨rfl, rfl⟩

/-- Claim C4 amended: construction performs no parameter validation at
all.  For every positive grid width and height it succeeds for every
combination of box, robot and pallet counts — in particular num_robots = 0
is accepted silently; the only construction-time failure is the randrange
error raised when a zero-sized dimension makes placement impossible. -/
theorem C4_init_performs_no_validation
    (width height num_boxes num_robots num_pallets seed : Nat)
    (hw : 0 < width) (hh : 0 < height) :
    exceptOk (WarehouseModel.init width height num_boxes num_robots num_pallets seed)
      = true := by
  obtain ⟨b, s₁, h1⟩ := createAgents_ok .box num_boxes 0 width height seed hw hh
  obtain ⟨p, s₂, h2⟩ := createAgents_ok (.pallet 0) num_pallets num_boxes
    width height s₁ hw hh
  obtain ⟨r, s₃, h3⟩ := createAgents_ok (.robot false 0) num_robots
    (num_boxes + num_pallets) width height s₂ hw hh
  unfold WarehouseModel.init
  simp only [h1, h2, h3]
  rfl

theorem C4_witness :
    (0 < 2 ∧ 0 < 2) ∧ exceptOk (WarehouseModel.init 2 2 1 0 1 5) = true :=
  ⟨⟨Nat.succ_pos 1, Nat.succ_pos 1⟩,
    C4_init_performs_no_validation 2 2 1 0 1 5 (Nat.succ_pos 1) (Nat.succ_pos 1)⟩

/-- Claim C5: over one completed scheduler tick, every registered agent's
robot movement counter is non-decreasing; moreover there is a state mm —
the simulation state at the instant that agent is activated inside the
tick, at which the counter still has its tick-start value — such that the
counter after the tick equals the start value plus exactly 1 when the
move branch of RobotAgent.step fires at mm, and plus 0 otherwise. -/
theorem C5_movements_track_move_branch (m m' : WarehouseModel) (id : Nat)
    (hnod : NodupIds m)
    (hmem : id ∈ m.agents.map (fun a => a.unique_id))
    (h : scheduleStep m = .ok m') :
    robotMovementsOf m id ≤ robotMovementsOf m' id ∧
    ∃ mm : WarehouseModel,
      robotMovementsOf mm id = robotMovementsOf m id ∧
      robotMovementsOf m' id
        = robotMovementsOf m id + (if moveBranch mm id then 1 else 0) := by
  have hdec := scheduleStep_decomp m m' h
  have hperm : List.Perm (shuffle (m.agents.map (fun a => a.unique_id)) m.rng).1
      (m.agents.map (fun a => a.unique_id)) :=
    shuffle_perm (m.agents.map (fun a => a.unique_id)) m.rng
  have hmemord : id ∈ (shuffle (m.agents.map (fun a => a.unique_id)) m.rng).1 :=
    hperm.mem_iff.mpr hmem
  have hnodord : (shuffle (m.agents.map (fun a => a.unique_id)) m.rng).1.Nodup :=
    (hperm.nodup_iff).mpr hnod
  obtain ⟨o₁, o₂, hsplit⟩ := List.append_of_mem hmemord
  rw [hsplit] at hnodord
  obtain ⟨hno1, hno2⟩ := nodup_split_middle o₁ o₂ id hnodord
  rw [hsplit] at hdec
  have hmono : robotMovementsOf m id ≤ robotMovementsOf m' id := by
    have h2 := runOrder_movementsOf_le (o₁ ++ id :: o₂) id _ m' hdec
    exact h2
  obtain ⟨mid1, hrun1, hrun2⟩ := runOrder_append o₁ (id :: o₂) _ m' hdec
  unfold runOrder at hrun2
  cases hact : activate mid1 id with
  | error e =>
    rw [hact] at hrun2
    cases hrun2
  | ok mid2 =>
    rw [hact] at hrun2
    have e1 : robotMovementsOf mid1 id = robotMovementsOf m id := by
      have e0 := runOrder_movementsOf_not_mem o₁ id _ mid1 hrun1 hno1
      exact e0
    have e2 := activate_robotMovementsOf mid1 id id mid2 hact
    have e3 : robotMovementsOf m' id = robotMovementsOf mid2 id :=
      runOrder_movementsOf_not_mem o₂ id mid2 m' hrun2 hno2
    refine ⟨hmono, mid1, e1, ?_⟩
    rw [e3, e2, e1]
    by_cases hmb : moveBranch mid1 id = true
    · rw [if_pos hmb, if_pos ⟨rfl, hmb⟩]
    · rw [if_neg hmb, if_neg (fun hc => hmb hc.2)]

theorem C5_witness :
    robotMovementsOf soloRobotModel 0
      ≤ robotMovementsOf (schedResult soloRobotModel) 0 :=
  (C5_movements_track_move_branch soloRobotModel (schedResult soloRobotModel) 0
    (by unfold NodupIds; decide) (by decide) rfl).1

/-- Claim C6: a model step first runs the scheduler tick — which leaves
the recorded history untouched — and then appends the post-tick cumulative
robot movement total to the history; when the existing history is
non-decreasing and bounded by the current total (as it is from
construction onward), the extended history is again non-decreasing and
bounded, so the recorded series of every run is non-decreasing. -/
theorem C6_step_appends_cumulative_total (m m' : WarehouseModel)
    (h : m.step = .ok m')
    (hchain : List.Chain' (fun x y => x ≤ y) m.movements)
    (hbound : ∀ x ∈ m.movements, x ≤ totalMovements m) :
    (∃ ms, scheduleStep m = .ok ms ∧
      m'.movements = m.movements ++ [totalMovements ms]) ∧
    List.Chain' (fun x y => x ≤ y) m'.movements ∧
    (∀ x ∈ m'.movements, x ≤ totalMovements m') := by
  obtain ⟨ms, hs, rfl⟩ := step_decomp m m' h
  have hmv : ms.movements = m.movements := scheduleStep_movlist m ms hs
  have hle : totalMovements m ≤ totalMovements ms :=
    scheduleStep_totalMovements_le m ms hs
  refine ⟨⟨ms, hs, ?_⟩, ?_, ?_⟩
  · show ms.movements ++ [totalMovements ms] = m.movements ++ [totalMovements ms]
    rw [hmv]
  · show List.Chain' (fun x y => x ≤ y) (ms.movements ++ [totalMovements ms])
    rw [hmv]
    exact chain'_append_singleton m.movements (totalMovements ms) hchain
      (fun x hx => Nat.le_trans (hbound x hx) hle)
  · intro x hx
    rw [totalMovements_set_movements]
    have hx' : x ∈ ms.movements ++ [totalMovements ms] := hx
    rw [hmv] at hx'
    rcases List.mem_append.mp hx' with hx1 | hx2
    · exact Nat.le_trans (hbound x hx1) hle
    · have hxe : x = totalMovements ms := by simpa using hx2
      rw [hxe]

theorem C6_witness :
    List.Chain' (fun x y => x ≤ y) (stepResult soloRobotModel).movements :=
  (C6_step_appends_cumulative_total soloRobotModel (stepResult soloRobotModel) rfl
    List.chain'_nil (fun x hx => absurd hx (List.not_mem_nil x))).2.1

/-- Claim C7: when an activated idle robot occupies a cell holding at
least one box, the activation sets its carrying flag within that single
activation and removes exactly one box from the grid, while the robot's
position and movement counter are unchanged. -/
theorem C7_pick_effect (m m' : WarehouseModel) (id : Nat) (a : WAgent)
    (p : Nat × Nat) (mov : Nat) (hnod : NodupIds m)
    (hfind : findAgent m id = some a)
    (hst : a.state = .robot false mov) (hpos : a.pos = some p)
    (hbox : (senseEnvironment m p).1 = true)
    (h : activate m id = .ok m') :
    carryingOf m' id = true ∧ posOf m' id = some p ∧
    robotMovementsOf m' id = robotMovementsOf m id ∧
    gridBoxCount m' + 1 = gridBoxCount m := by
  unfold activate at h
  simp only [hfind, hst, hpos, Bool.false_eq_true, if_false, hbox, if_true] at h
  rw [pick_box] at h
  simp only [Bool.false_eq_true, if_false] at h
  cases hfil : (cellContents m p).filter (fun b => b.isBox) with
  | nil => exact absurd hfil (sense_box_filter_ne m p hbox)
  | cons box0 rest =>
    simp only [hfil] at h
    injection h with h2
    subst h2
    have ha : a ∈ m.agents := findAgent_mem m id a hfind
    have hauid : a.unique_id = id := findAgent_uid m id a hfind
    subst hauid
    obtain ⟨hqmem, hqbox, hqpos⟩ := filter_cell_head m p _ box0 rest hfil
    have haq : a ≠ box0 := by
      intro he
      rw [← he] at hqbox
      simp [WAgent.isBox, hst] at hqbox
    have hqa : box0.unique_id ≠ a.unique_id :=
      uid_ne_of_ne m.agents hnod box0 a hqmem ha (Ne.symm haq)
    have hqm1 : box0 ∈ (updateAgent m a.unique_id (fun b => b.setCarrying true)).agents :=
      mem_updateAgent_of_ne m a.unique_id (fun b => b.setCarrying true) box0 hqmem hqa
    have hnm1 : NodupIds (updateAgent m a.unique_id (fun b => b.setCarrying true)) :=
      nodup_updateAgent m a.unique_id (fun b => b.setCarrying true) (fun b => rfl) hnod
    have hfind2 : findAgent (updateAgent (updateAgent m a.unique_id
          (fun b => b.setCarrying true)) box0.unique_id (fun b => b.setPos none))
        a.unique_id = some (a.setCarrying true) := by
      rw [findAgent_updateAgent _ box0.unique_id a.unique_id
        (fun b => b.setPos none) (fun b => rfl)]
      rw [findAgent_updateAgent m a.unique_id a.unique_id
        (fun b => b.setCarrying true) (fun b => rfl)]
      rw [hfind]
      show some (if (if a.unique_id == a.unique_id then a.setCarrying true
          else a).unique_id == box0.unique_id then
          ((if a.unique_id == a.unique_id then a.setCarrying true else a).setPos none)
        else (if a.unique_id == a.unique_id then a.setCarrying true else a)) = _
      rw [beq_self_eq_true]
      simp only [if_true]
      rw [nat_beq_false (a.setCarrying true).unique_id box0.unique_id
        (fun hc => hqa hc.symm)]
      simp
    refine ⟨?_, ?_, ?_, ?_⟩
    · simp [carryingOf, hfind2, setCarrying_state a false mov true hst]
    · simp [posOf, hfind2]
      exact hpos
    · simp [robotMovementsOf, hfind2, hfind]
      exact robotMovements_setCarrying a true
    · have E3 : gridBoxCount (updateAgent m a.unique_id (fun b => b.setCarrying true))
          = gridBoxCount m :=
        gridBoxCount_updateAgent_eq m a.unique_id (fun b => b.setCarrying true)
          (fun b => gridBoxFlag_setCarrying b true)
      have E4 := gridBoxCount_updateAgent_found
        (updateAgent m a.unique_id (fun b => b.setCarrying true)) box0
        (fun b => b.setPos none) hqm1 hnm1
      rw [gridBoxFlag_of_box_some box0 p hqbox hqpos, gridBoxFlag_setPos_none] at E4
      omega

theorem C7_witness :
    carryingOf (activateResult pickDemoModel 1) 1 = true ∧
    posOf (activateResult pickDemoModel 1) 1 = some (0, 0) ∧
    robotMovementsOf (activateResult pickDemoModel 1) 1
      = robotMovementsOf pickDemoModel 1 ∧
    gridBoxCount (activateResult pickDemoModel 1) + 1 = gridBoxCount pickDemoModel :=
  C7_pick_effect pickDemoModel (activateResult pickDemoModel 1) 1
    { unique_id := 1, state := .robot false 3, pos := some (0, 0) } (0, 0) 3
    (by unfold NodupIds; decide) rfl rfl rfl rfl rfl

/-- Claim C8: the neighbor query used by robot movement returns, as a set,
exactly the orthogonally adjacent cells under the grid's torus wrap mode —
the four wrapped von Neumann cells with the center excluded — and the
returned sequence never contains the center and has no duplicates. -/
theorem C8_neighborhood_exact (w h x y : Nat) :
    (getNeighborhood w h (x, y)).toFinset = orthogonalNeighborsSpec w h (x, y) ∧
    (x, y) ∉ getNeighborhood w h (x, y) ∧
    (getNeighborhood w h (x, y)).Nodup := by
  refine ⟨?_, ?_, ?_⟩
  · ext q
    simp only [List.mem_toFinset, getNeighborhood, List.mem_filter,
      mem_dedupFirst, orthogonalNeighborsSpec, Finset.mem_sdiff,
      Finset.mem_insert, Finset.mem_singleton, List.mem_cons,
      List.not_mem_nil, or_false, decide_eq_true_eq]
    constructor
    · rintro ⟨hmem, hne⟩
      rcases hmem with h1 | h2 | h3 | h4 | h5
      · exact ⟨Or.inl h1, hne⟩
      · exact ⟨Or.inr (Or.inr (Or.inl h2)), hne⟩
      · exact absurd h3 hne
      · exact ⟨Or.inr (Or.inr (Or.inr h4)), hne⟩
      · exact ⟨Or.inr (Or.inl h5), hne⟩
    · rintro ⟨hmem, hne⟩
      rcases hmem with h1 | h2 | h3 | h4
      · exact ⟨Or.inl h1, hne⟩
      · exact ⟨Or.inr (Or.inr (Or.inr (Or.inr h2))), hne⟩
      · exact ⟨Or.inr (Or.inl h3), hne⟩
      · exact ⟨Or.inr (Or.inr (Or.inr (Or.inl h4))), hne⟩
  · intro hmem
    unfold getNeighborhood at hmem
    rw [List.mem_filter] at hmem
    simp at hmem
  · exact List.Nodup.filter _ (nodup_dedupFirst _)

/-- Claim C9 counterexample: the claim says a simulation instance can be
constructed with a seed.  It cannot: the constructor declares exactly
(width, height, num_boxes, num_robots, num_pallets) — no seed parameter
and no keyword catch-all — so a call passing a seed keyword raises
TypeError instead of producing a simulation object.  Evaluated here at
the default configuration with seed 42. -/
theorem C9_seeded_construction_rejected :
    constructModel 10 10 20 5 5 ["seed"] 42
      = .error "TypeError: WarehouseModel got an unexpected keyword argument seed" :=
  rfl

/-- Claim C9 amended: a simulation instance cannot be constructed with a
seed — a seed keyword is rejected with TypeError, and construction always
runs on the ambient state of the per-instance generator.  All randomness
(placement, activation order, neighbor choice) is still drawn from that
one generator, so two runs of the same configuration started from the
same generator state are identical — same elapsed tick count and same
reported final cumulative movement total.  The claimed determinism
therefore holds only relative to the internal generator state, which no
caller-supplied seed can fix. -/
theorem C9_construction_unseeded_runs_deterministic
    (width height num_boxes num_robots num_pallets entropy max_steps : Nat) :
    constructModel width height num_boxes num_robots num_pallets ["seed"] entropy
      = .error "TypeError: WarehouseModel got an unexpected keyword argument seed" ∧
    ∀ r₁ r₂ : Except String (Nat × WarehouseModel),
      runSimulation width height num_boxes num_robots num_pallets entropy
        max_steps = r₁ →
      runSimulation width height num_boxes num_robots num_pallets entropy
        max_steps = r₂ →
      r₁ = r₂ ∧
      ∀ t₁ m₁ t₂ m₂, r₁ = .ok (t₁, m₁) → r₂ = .ok (t₂, m₂) →
        t₁ = t₂ ∧ finalMovementTotal m₁ = finalMovementTotal m₂ := by
  refine ⟨rfl, ?_⟩
  intro r₁ r₂ h₁ h₂
  subst h₁
  subst h₂
  refine ⟨rfl, ?_⟩
  intro t₁ m₁ t₂ m₂ e₁ e₂
  rw [e₁] at e₂
  injection e₂ with e₃
  injection e₃ with et em
  exact ⟨et, by rw [em]⟩

theorem C9_corrected_witness :
    constructModel 3 3 1 1 1 ["seed"] 5
      = .error "TypeError: WarehouseModel got an unexpected keyword argument seed" ∧
    runSimulation 3 3 1 1 1 5 6 = runSimulation 3 3 1 1 1 5 6 :=
  ⟨(C9_construction_unseeded_runs_deterministic 3 3 1 1 1 5 6).1,
    ((C9_construction_unseeded_runs_deterministic 3 3 1 1 1 5 6).2
      (runSimulation 3 3 1 1 1 5 6) (runSimulation 3 3 1 1 1 5 6) rfl rfl).1⟩

/-- Claim C10: a model step never removes anything from the scheduler:
the list of registered agent ids — and hence the number of scheduled
agents — is identical before and after every tick.  A picked-up box loses
only its grid position; its scheduler registration survives for the rest
of the run. -/
theorem C10_scheduler_agents_preserved (m m' : WarehouseModel)
    (h : m.step = .ok m') :
    m'.agents.map (fun a => a.unique_id) = m.agents.map (fun a => a.unique_id) ∧
    m'.agents.length = m.agents.length := by
  refine ⟨step_ids m m' h, ?_⟩
  have h2 := congrArg List.length (step_ids m m' h)
  simpa using h2

theorem C10_witness :
    (stepResult pickDemoModel).agents.length = pickDemoModel.agents.length :=
  (C10_scheduler_agents_preserved pickDemoModel (stepResult pickDemoModel) rfl).2

end Warehouse
